import Mathlib

/-!
# Verification of the color-wars game engine

A shallow embedding of the game engine of `src/app.py` (class `GameRoom` and
the socket handlers `on_join`, `on_move`, `handle_disconnecting`), together
with proofs about it.

Conventions of the embedding:
* Python's 8x8 list-of-lists grid becomes `Grid := List (List Cell)`;
  reads and writes go through `getCellN`/`setCellN` (`List.getD`/`List.set`).
* Client-supplied coordinates are `Int` (Python ints); the code's bound
  checks `0 <= r < 8` are kept verbatim and indices are converted with
  `Int.toNat` only inside those checks, exactly where the source indexes.
* Python dicts (`rooms`, `first_moves_done`) become insertion-ordered
  association lists with `dictGet`/`dictSet`/`dictDel` mirroring lookup,
  `d[k] = v` (overwrite in place or append) and `del d[k]`.
* Fallible code is `Option`: a `KeyError` (`first_moves_done[color]` with a
  missing key) or `IndexError` (`colors[len(players)]` with more than four
  seats, `players[turn_index]` on an empty roster) becomes a `crashed`
  outcome, with every mutation performed before the raise kept, as in Python.
* The recursive `explode` gets an explicit fuel argument (`explodeF`);
  `on_move` supplies the fuel `phi grid + 1`, which the termination theorem
  below proves sufficient on well-formed grids, so the `none` branch is
  provably never taken there.
* Strings arrive already stripped (the handlers strip before validating).
-/

/-- One board cell: `{"dots": ..., "owner": ...}` of `app.py`. -/
structure Cell where
  dots : Nat
  owner : Option String
deriving DecidableEq

/-- The grid is Python's 8x8 list of lists of cells. -/
abbrev Grid := List (List Cell)

/-- A fresh cell, `{"dots": 0, "owner": None}`. -/
def emptyCell : Cell := { dots := 0, owner := none }

/-- The grid built by `GameRoom.__init__`. -/
def initGrid : Grid := List.replicate 8 (List.replicate 8 emptyCell)

/-- Read `grid[r][c]` (total; callers index only in bounds, as the source does). -/
def getCellN (g : Grid) (r c : Nat) : Cell := (g.getD r []).getD c emptyCell

/-- Write `grid[r][c] = x` (total; `List.set` ignores out-of-range writes). -/
def setCellN (g : Grid) (r c : Nat) (x : Cell) : Grid :=
  g.set r ((g.getD r []).set c x)

/-- Read a cell at Python-int coordinates. -/
def getCell (g : Grid) (r c : Int) : Cell := getCellN g r.toNat c.toNat

/-- Write a cell at Python-int coordinates. -/
def setCell (g : Grid) (r c : Int) (x : Cell) : Grid := setCellN g r.toNat c.toNat x

/-- The source's bound check `0 <= r < 8 and 0 <= c < 8`. -/
def inRange (r c : Int) : Prop := 0 ≤ r ∧ r < 8 ∧ 0 ≤ c ∧ c < 8

instance (r c : Int) : Decidable (inRange r c) := by
  unfold inRange; infer_instance

/-- Association-list lookup, mirroring Python dict `d[k]` / `d.get(k)`. -/
def dictGet (d : List (String × α)) (k : String) : Option α :=
  (d.find? (fun kv => kv.1 == k)).map (·.2)

/-- Python dict assignment `d[k] = v`: overwrite in place, else append. -/
def dictSet (d : List (String × α)) (k : String) (v : α) : List (String × α) :=
  match d with
  | [] => [(k, v)]
  | kv :: rest => if kv.1 == k then (k, v) :: rest else kv :: dictSet rest k v

/-- Python dict deletion `del d[k]` (no-op when the key is absent). -/
def dictDel (d : List (String × α)) (k : String) : List (String × α) :=
  match d with
  | [] => []
  | kv :: rest => if kv.1 == k then rest else kv :: dictDel rest k

/-- A seated player: `{"id": sid, "name": name, "color": color}`. -/
structure Player where
  id : String
  name : String
  color : String
deriving DecidableEq

/-- The fixed palette `self.colors`. -/
def colors : List String := ["red", "blue", "green", "yellow"]

/-- The mutable state of `class GameRoom` (timestamps omitted; no claim
reads them). -/
structure GameRoom where
  room_id : String
  max_players : Int
  grid : Grid
  players : List Player
  turn_index : Nat
  game_started : Bool
  first_moves_done : List (String × Bool)
deriving DecidableEq

/-- `GameRoom.__init__(room_id, max_players)`: note `int(max_players)` is
stored as given, with no clamping. -/
def initRoom (rid : String) (maxp : Int) : GameRoom :=
  { room_id := rid
    max_players := maxp
    grid := initGrid
    players := []
    turn_index := 0
    game_started := false
    first_moves_done := [] }

/-- Result of `GameRoom.add_player`. -/
inductive AddResult
  | rejoined (color : String)
  | seated (color : String)
  | full
  | crashed
deriving DecidableEq

/-- `GameRoom.add_player(sid, name)`.  `crashed` is the `IndexError` of
`self.colors[len(self.players)]` when more than four seats are filled
(possible because `max_players` is unvalidated); it is raised before any
mutation. -/
def addPlayer (g : GameRoom) (sid name : String) : GameRoom × AddResult :=
  match g.players.find? (fun p => p.id == sid) with
  | some p => (g, .rejoined p.color)
  | none =>
    if (g.players.length : Int) < g.max_players then
      match colors.get? g.players.length with
      | none => (g, .crashed)
      | some color =>
        let players' := g.players ++ [{ id := sid, name := name, color := color }]
        ({ g with
            players := players'
            first_moves_done := dictSet g.first_moves_done color false
            game_started :=
              if (players'.length : Int) = g.max_players then true else g.game_started },
          .seated color)
    else (g, .full)

/-- Remove the first player with the given id from the list, returning it. -/
def removeFromList (ps : List Player) (sid : String) : List Player × Option Player :=
  match ps with
  | [] => ([], none)
  | p :: rest =>
    if p.id == sid then (rest, some p)
    else
      let r := removeFromList rest sid
      (p :: r.1, r.2)

/-- `GameRoom.remove_player(sid)`: pop the player, delete its color's
first-move entry, clamp `turn_index`, recompute `game_started`. -/
def removePlayer (g : GameRoom) (sid : String) : GameRoom × Option (String × String) :=
  match removeFromList g.players sid with
  | (_, none) => (g, none)
  | (players', some p) =>
    ({ g with
        players := players'
        first_moves_done :=
          if (dictGet g.first_moves_done p.color).isSome then
            dictDel g.first_moves_done p.color
          else g.first_moves_done
        turn_index := if players'.length ≤ g.turn_index then 0 else g.turn_index
        game_started :=
          if (players'.length : Int) < g.max_players then false else g.game_started },
      some (p.name, p.color))

/-- `GameRoom.handle_click(r, c, player_color)`: `none` models the
`KeyError` of `self.first_moves_done[player_color]` (raised before any
mutation); otherwise `some (room', success)`. -/
def handleClick (g : GameRoom) (r c : Int) (color : String) : Option (GameRoom × Bool) :=
  let cell := getCell g.grid r c
  match dictGet g.first_moves_done color with
  | none => none
  | some done =>
    if done = false then
      if cell.owner = none then
        some ({ g with
                 grid := setCell g.grid r c { dots := 3, owner := some color }
                 first_moves_done := dictSet g.first_moves_done color true }, true)
      else some (g, false)
    else
      if cell.owner = some color then
        some ({ g with grid := setCell g.grid r c { cell with dots := cell.dots + 1 } }, true)
      else some (g, false)

/-- The neighbor order of `GameRoom.explode`:
`directions = [(0, 1), (0, -1), (1, 0), (-1, 0)]`. -/
def directions : List (Int × Int) := [(0, 1), (0, -1), (1, 0), (-1, 0)]

/-- The body of `explode`'s `for dr, dc in directions` loop, with the
recursive call abstracted as `recur`: each in-bounds neighbor is
unconditionally captured and incremented, and recursed into at once when it
reaches four dots. -/
def explodeLoop (recur : Int → Int → Grid → Option Grid) :
    List (Int × Int) → Int → Int → String → Grid → Option Grid
  | [], _, _, _, g => some g
  | d :: rest, r, c, color, g =>
    let nr := r + d.1
    let nc := c + d.2
    if inRange nr nc then
      let cell2 : Cell := { dots := (getCell g nr nc).dots + 1, owner := some color }
      let g2 := setCell g nr nc cell2
      if 4 ≤ cell2.dots then
        match recur nr nc g2 with
        | none => none
        | some g3 => explodeLoop recur rest r c color g3
      else explodeLoop recur rest r c color g2
    else explodeLoop recur rest r c color g

/-- `GameRoom.explode(r, c, color)` with fuel: zero the triggering cell,
then run the direction loop.  `none` only on fuel exhaustion (never from
`on_move`'s fuel, by `explodeF_total` below). -/
def explodeF : Nat → Int → Int → String → Grid → Option Grid
  | 0, _, _, _, _ => none
  | n + 1, r, c, color, g =>
    explodeLoop (fun nr nc g' => explodeF n nr nc color g') directions r c color
      (setCell g r c emptyCell)

/-- The scan of `check_winner`: fold every cell, collecting the distinct
owners in first-seen order and the total dots of owned cells. -/
def scanStep (acc : List String × Nat) (cell : Cell) : List String × Nat :=
  match cell.owner with
  | none => acc
  | some o => (if o ∈ acc.1 then acc.1 else acc.1 ++ [o], acc.2 + cell.dots)

/-- `check_winner`'s double loop over the grid. -/
def scanBoard (g : Grid) : List String × Nat :=
  g.foldl (fun acc row => row.foldl scanStep acc) ([], 0)

/-- `GameRoom.check_winner()`. -/
def checkWinner (g : GameRoom) : Option String :=
  if g.game_started = false then none
  else
    let scan := scanBoard g.grid
    if g.first_moves_done.all (fun kv => kv.2) ∧ 0 < scan.2 ∧ scan.1.length = 1 then
      match scan.1.head? with
      | none => none
      | some wc => (g.players.find? (fun p => p.color == wc)).map (·.name)
    else none

/-- The per-row weight profile used by the cascade termination measure. -/
def uw : Nat → Nat
  | 0 => 5
  | 1 => 9
  | 2 => 12
  | 3 => 13
  | 4 => 13
  | 5 => 12
  | 6 => 9
  | 7 => 5
  | _ => 0

/-- Cell weight for the termination measure: strictly superharmonic on the
8x8 grid (`four_mul_weight_gt` below). -/
def cellWeight (r c : Nat) : Nat := uw r * uw c

/-- The termination measure: weighted total dots of the grid. -/
def phi (g : Grid) : Nat :=
  ∑ r ∈ Finset.range 8, ∑ c ∈ Finset.range 8, (getCellN g r c).dots * cellWeight r c

/-- Outcome of a `make_move` event, as `on_move` surfaces it. -/
inductive MoveOutcome
  | roomNotFound
  | notStarted
  | outOfBounds
  | notYourTurn
  | firstMoveInvalid
  | notOwnCell
  | crashed
  | gameOver (winner : String)
  | advanced
deriving DecidableEq

/-- The module-level `rooms` dict. -/
abbrev Registry := List (String × GameRoom)

/-- Tail of `on_move` after a successful click (and explosion, when due):
`check_winner`, then either `game_over` with no turn advance, or
`turn_index = (turn_index + 1) % len(players)`. -/
def moveFinish (game : GameRoom) : GameRoom × MoveOutcome :=
  match checkWinner game with
  | some w => (game, .gameOver w)
  | none =>
    ({ game with turn_index := (game.turn_index + 1) % game.players.length }, .advanced)

/-- `on_move` from `handle_click` on: the success branch re-reads the cell,
explodes when `first_moves_done[color]` holds and the cell has four or more
dots, and the failure branch re-reads `first_moves_done[color]` to pick the
rejection message. -/
def moveClick (game : GameRoom) (color : String) (r c : Int) : GameRoom × MoveOutcome :=
  match handleClick game r c color with
  | none => (game, .crashed)
  | some (game₂, false) =>
    match dictGet game₂.first_moves_done color with
    | none => (game₂, .crashed)
    | some done => (game₂, if done = false then .firstMoveInvalid else .notOwnCell)
  | some (game₂, true) =>
    match dictGet game₂.first_moves_done color with
    | none => (game₂, .crashed)
    | some done =>
      let cell := getCell game₂.grid r c
      if done = true ∧ 4 ≤ cell.dots then
        match explodeF (phi game₂.grid + 1) r c color game₂.grid with
        | none => (game₂, .crashed)
        | some grid' => moveFinish { game₂ with grid := grid' }
      else moveFinish game₂

/-- `on_move` from the `turn_index` clamp on: clamp, resolve the current
player (an empty roster would raise, `crashed`), check the turn. -/
def moveTurn (game : GameRoom) (sid : String) (r c : Int) : GameRoom × MoveOutcome :=
  let game₁ := if game.players.length ≤ game.turn_index then
    { game with turn_index := 0 } else game
  match game₁.players.get? game₁.turn_index with
  | none => (game₁, .crashed)
  | some curr =>
    if sid = curr.id then moveClick game₁ curr.color r c
    else (game₁, .notYourTurn)

/-- The `make_move` handler `on_move(data)`: resolve the room, require the
game started and the coordinates in bounds (all three before any mutation),
then hand over to `moveTurn` and write the room back. -/
def onMove (reg : Registry) (rid sid : String) (r c : Int) : Registry × MoveOutcome :=
  match dictGet reg rid with
  | none => (reg, .roomNotFound)
  | some game =>
    if game.game_started = false then (reg, .notStarted)
    else if ¬ inRange r c then (reg, .outOfBounds)
    else
      let res := moveTurn game sid r c
      (dictSet reg rid res.1, res.2)

/-- Outcome of a `join_room` event. -/
inductive JoinOutcome
  | missingFields
  | nameTooLong
  | ridTooLong
  | duplicateName
  | roomFull
  | joinFailed
  | joinCrashed
  | joined (color : String)
deriving DecidableEq

/-- Tail of `on_join`: `game.add_player` on the (possibly just created)
room; the room stays in the registry whatever the result, as in the source. -/
def joinAdd (reg : Registry) (rid : String) (game : GameRoom) (sid name : String) :
    Registry × JoinOutcome :=
  match addPlayer game sid name with
  | (game', .rejoined color) => (dictSet reg rid game', .joined color)
  | (game', .seated color) => (dictSet reg rid game', .joined color)
  | (game', .full) => (dictSet reg rid game', .joinFailed)
  | (game', .crashed) => (dictSet reg rid game', .joinCrashed)

/-- The `join_room` handler `on_join(data)`: input validation, duplicate
name and capacity checks against an existing room, lazy room creation
(`GameRoom(rid, p_count)`, capacity unclamped), then `add_player`. -/
def onJoin (reg : Registry) (rid name : String) (pc : Int) (sid : String) :
    Registry × JoinOutcome :=
  if rid = "" ∨ name = "" then (reg, .missingFields)
  else if 20 < name.length then (reg, .nameTooLong)
  else if 50 < rid.length then (reg, .ridTooLong)
  else
    match dictGet reg rid with
    | some game =>
      if name ∈ game.players.map (·.name) then (reg, .duplicateName)
      else if game.max_players ≤ (game.players.length : Int) then (reg, .roomFull)
      else joinAdd reg rid game sid name
    | none =>
      let game := initRoom rid pc
      joinAdd (dictSet reg rid game) rid game sid name

/-- The `disconnecting` handler: remove the player from every room it sits
in, deleting rooms left empty.  (The source iterates a snapshot of the dict
and touches only the entry at hand, so a filterMap over the list is the
same function.) -/
def onDisconnect (reg : Registry) (sid : String) : Registry :=
  reg.filterMap (fun kv =>
    let res := removePlayer kv.2 sid
    match res.2 with
    | none => some kv
    | some _ => if res.1.players = [] then none else some (kv.1, res.1))

/-- An inbound client event, as delivered by the transport. -/
inductive Event
  | join (rid name : String) (pc : Int) (sid : String)
  | move (rid sid : String) (r c : Int)
  | disconnect (sid : String)

/-- One event against the registry. -/
def stepEvent (reg : Registry) : Event → Registry
  | .join rid name pc sid => (onJoin reg rid name pc sid).1
  | .move rid sid r c => (onMove reg rid sid r c).1
  | .disconnect sid => onDisconnect reg sid

/-- The registry after a sequence of events from process start. -/
def runEvents (evs : List Event) : Registry := evs.foldl stepEvent []

/-- A registry state the server can be in: reached by some event sequence. -/
def Reachable (reg : Registry) : Prop := ∃ evs, runEvents evs = reg

/-! ## Well-formedness of grids and basic cell lemmas -/

/-- A grid with the shape `GameRoom.__init__` creates and every operation
preserves: 8 rows of 8 cells. -/
def gridWF (g : Grid) : Prop := g.length = 8 ∧ ∀ row ∈ g, row.length = 8

theorem gridWF_initGrid : gridWF initGrid := by
  refine ⟨rfl, ?_⟩
  intro row hrow
  rw [List.eq_of_mem_replicate hrow]
  rfl

theorem length_row_of_wf {g : Grid} (hw : gridWF g) {i : Nat} (hi : i < 8) :
    (g.getD i []).length = 8 := by
  rw [List.getD_eq_getElem g [] (by rw [hw.1]; exact hi)]
  exact hw.2 _ (List.getElem_mem _)

theorem gridWF_setCellN {g : Grid} (hw : gridWF g) (i j : Nat) (x : Cell) :
    gridWF (setCellN g i j x) := by
  by_cases hi : i < g.length
  · refine ⟨by simpa [setCellN] using hw.1, ?_⟩
    intro row hrow
    rcases List.mem_or_eq_of_mem_set hrow with h | h
    · exact hw.2 row h
    · subst h
      rw [List.length_set]
      exact length_row_of_wf hw (by rw [← hw.1]; exact hi)
  · unfold setCellN
    rw [List.set_eq_of_length_le (Nat.le_of_not_lt hi)]
    exact hw

theorem getD_set_self {α : Type} (l : List α) (i : Nat) (a d : α) (h : i < l.length) :
    (l.set i a).getD i d = a := by
  rw [List.getD_eq_getElem?_getD, List.getElem?_set_self']
  simp [h]

theorem getD_set_of_ne {α : Type} (l : List α) {i j : Nat} (a d : α) (h : i ≠ j) :
    (l.set i a).getD j d = l.getD j d := by
  rw [List.getD_eq_getElem?_getD, List.getElem?_set_ne h, ← List.getD_eq_getElem?_getD]

theorem getCellN_setCellN_self {g : Grid} (hw : gridWF g) {i j : Nat}
    (hi : i < 8) (hj : j < 8) (x : Cell) :
    getCellN (setCellN g i j x) i j = x := by
  have hiL : i < g.length := by rw [hw.1]; exact hi
  have hrow : (g.getD i []).length = 8 := length_row_of_wf hw hi
  unfold getCellN setCellN
  rw [getD_set_self _ _ _ _ hiL, getD_set_self _ _ _ _ (by rw [hrow]; exact hj)]

theorem getCellN_setCellN_of_ne {g : Grid} {i j i' j' : Nat}
    (hne : i ≠ i' ∨ j ≠ j') (x : Cell) :
    getCellN (setCellN g i j x) i' j' = getCellN g i' j' := by
  unfold getCellN setCellN
  rcases hne with h | h
  · rw [getD_set_of_ne _ _ _ h]
  · by_cases hii : i = i'
    · subst hii
      by_cases hiL : i < g.length
      · rw [getD_set_self _ _ _ _ hiL, getD_set_of_ne _ _ _ h]
      · rw [List.set_eq_of_length_le (Nat.le_of_not_lt hiL)]
    · rw [getD_set_of_ne _ _ _ hii]

/-! ## Association-list (Python dict) lemmas -/

theorem dictGet_dictSet_self (d : List (String × α)) (k : String) (v : α) :
    dictGet (dictSet d k v) k = some v := by
  induction d with
  | nil => simp [dictGet, dictSet, List.find?]
  | cons kv rest ih =>
    by_cases h : kv.1 == k
    · simp [dictSet, h, dictGet, List.find?, beq_self_eq_true]
    · simp only [dictSet, h, if_false]
      simpa [dictGet, List.find?, h] using ih

theorem dictGet_dictSet_of_ne (d : List (String × α)) {k k' : String} (h : k ≠ k') (v : α) :
    dictGet (dictSet d k v) k' = dictGet d k' := by
  have hbe : (k == k') = false := beq_eq_false_iff_ne.mpr h
  induction d with
  | nil => simp [dictGet, dictSet, List.find?, hbe]
  | cons kv rest ih =>
    by_cases hkv : kv.1 == k
    · have hk : kv.1 = k := eq_of_beq hkv
      simp [dictSet, hkv, dictGet, List.find?, hk, hbe]
    · simp only [dictSet, hkv, if_false]
      by_cases hkv' : kv.1 == k'
      · simp [dictGet, List.find?, hkv']
      · simpa [dictGet, List.find?, hkv'] using ih

theorem dictSet_eq_self_of_get {d : List (String × α)} {k : String} {v : α}
    (h : dictGet d k = some v) : dictSet d k v = d := by
  induction d with
  | nil => simp [dictGet, List.find?] at h
  | cons kv rest ih =>
    by_cases hkv : kv.1 == k
    · have hk : kv.1 = k := eq_of_beq hkv
      have : kv.2 = v := by
        simp [dictGet, List.find?, hkv] at h
        exact h
      simp [dictSet, hkv, ← hk, ← this]
    · have h' : dictGet rest k = some v := by
        simpa [dictGet, List.find?, hkv] using h
      simp [dictSet, hkv, ih h']

theorem mem_of_dictGet_eq_some {d : List (String × α)} {k : String} {v : α}
    (h : dictGet d k = some v) : (k, v) ∈ d := by
  induction d with
  | nil => simp [dictGet, List.find?] at h
  | cons kv rest ih =>
    obtain ⟨k1, v1⟩ := kv
    by_cases hkv : k1 == k
    · have hk : k1 = k := eq_of_beq hkv
      simp [dictGet, List.find?, hkv] at h
      subst hk
      subst h
      exact List.mem_cons_self _ _
    · exact List.mem_cons_of_mem _ (ih (by simpa [dictGet, List.find?, hkv] using h))

theorem mem_dictSet {d : List (String × α)} {k : String} {v : α} {kv : String × α}
    (h : kv ∈ dictSet d k v) : kv ∈ d ∨ kv = (k, v) := by
  induction d with
  | nil =>
    right
    simpa [dictSet] using h
  | cons kv' rest ih =>
    by_cases hkv : kv'.1 == k
    · simp [dictSet, hkv, List.mem_cons] at h
      rcases h with h | h
      · exact Or.inr h
      · exact Or.inl (List.mem_cons_of_mem _ h)
    · simp [dictSet, hkv, List.mem_cons] at h
      rcases h with h | h
      · exact Or.inl (by simp [h])
      · rcases ih h with h' | h'
        · exact Or.inl (List.mem_cons_of_mem _ h')
        · exact Or.inr h'

/-! ## The cascade termination measure -/

theorem cellWeight_pos {r c : Nat} (hr : r < 8) (hc : c < 8) : 0 < cellWeight r c := by
  have h : ∀ a < 8, ∀ b < 8, 0 < cellWeight a b := by decide
  exact h r hr c hc

theorem nat_single_le_sum (f : Nat → Nat) (s : Finset Nat) (j : Nat) (h : j ∈ s) :
    f j ≤ ∑ x ∈ s, f x :=
  Finset.single_le_sum (fun _ _ => Nat.zero_le _) h

theorem phi_term_le {g : Grid} {i j : Nat} (hi : i < 8) (hj : j < 8) :
    (getCellN g i j).dots * cellWeight i j ≤ phi g := by
  unfold phi
  have hinner := nat_single_le_sum (fun c => (getCellN g i c).dots * cellWeight i c)
    (Finset.range 8) j (Finset.mem_range.mpr hj)
  have houter := nat_single_le_sum
    (fun r => ∑ c ∈ Finset.range 8, (getCellN g r c).dots * cellWeight r c)
    (Finset.range 8) i (Finset.mem_range.mpr hi)
  exact le_trans hinner houter

theorem phi_setCellN {g : Grid} (hw : gridWF g) {i j : Nat} (hi : i < 8) (hj : j < 8)
    (x : Cell) :
    phi (setCellN g i j x) + (getCellN g i j).dots * cellWeight i j
      = phi g + x.dots * cellWeight i j := by
  have hmem : i ∈ Finset.range 8 := Finset.mem_range.mpr hi
  have hmemj : j ∈ Finset.range 8 := Finset.mem_range.mpr hj
  have split : ∀ g' : Grid,
      phi g' = (getCellN g' i j).dots * cellWeight i j
        + ((∑ c ∈ (Finset.range 8).erase j, (getCellN g' i c).dots * cellWeight i c)
          + ∑ r ∈ (Finset.range 8).erase i,
              ∑ c ∈ Finset.range 8, (getCellN g' r c).dots * cellWeight r c) := by
    intro g'
    unfold phi
    rw [← Finset.add_sum_erase _ _ hmem, ← Finset.add_sum_erase _ _ hmemj]
    ring
  rw [split (setCellN g i j x), split g, getCellN_setCellN_self hw hi hj x]
  have hrow : ∀ c ∈ (Finset.range 8).erase j,
      (getCellN (setCellN g i j x) i c).dots * cellWeight i c
        = (getCellN g i c).dots * cellWeight i c := by
    intro c hc
    rw [getCellN_setCellN_of_ne (Or.inr (Ne.symm (Finset.ne_of_mem_erase hc))) x]
  have hout : ∀ r ∈ (Finset.range 8).erase i,
      (∑ c ∈ Finset.range 8, (getCellN (setCellN g i j x) r c).dots * cellWeight r c)
        = ∑ c ∈ Finset.range 8, (getCellN g r c).dots * cellWeight r c := by
    intro r hr
    refine Finset.sum_congr rfl (fun c _ => ?_)
    rw [getCellN_setCellN_of_ne (Or.inl (Ne.symm (Finset.ne_of_mem_erase hr))) x]
  rw [Finset.sum_congr rfl hrow, Finset.sum_congr rfl hout]
  ring

theorem phi_zeroCell {g : Grid} (hw : gridWF g) {i j : Nat} (hi : i < 8) (hj : j < 8) :
    phi (setCellN g i j emptyCell) + (getCellN g i j).dots * cellWeight i j = phi g := by
  have h := phi_setCellN hw hi hj emptyCell
  simpa [emptyCell] using h

theorem phi_bumpCell {g : Grid} (hw : gridWF g) {i j : Nat} (hi : i < 8) (hj : j < 8)
    (o : Option String) :
    phi (setCellN g i j { dots := (getCellN g i j).dots + 1, owner := o })
      = phi g + cellWeight i j := by
  have h := phi_setCellN hw hi hj { dots := (getCellN g i j).dots + 1, owner := o }
  simp only [Nat.succ_mul] at h
  omega

/-- Sum of the weights of the in-bounds neighbors a remaining direction list
will touch. -/
def dirsWeight (dirs : List (Int × Int)) (r c : Int) : Nat :=
  match dirs with
  | [] => 0
  | d :: rest =>
    (if inRange (r + d.1) (c + d.2) then cellWeight (r + d.1).toNat (c + d.2).toNat else 0)
      + dirsWeight rest r c

/-- The weight profile is strictly superharmonic: a full frame's removals
strictly dominate all increments it can make. -/
theorem dirsWeight_lt {r c : Int} (h : inRange r c) :
    dirsWeight directions r c + 1 ≤ 4 * cellWeight r.toNat c.toNat := by
  obtain ⟨h0, h8, h0c, h8c⟩ := h
  have key : ∀ a < 8, ∀ b < 8,
      dirsWeight directions ((a : Nat) : Int) ((b : Nat) : Int) + 1 ≤ 4 * cellWeight a b := by
    decide
  have := key r.toNat (by omega) c.toNat (by omega)
  rwa [Int.toNat_of_nonneg h0, Int.toNat_of_nonneg h0c] at this

/-! ## Termination of the cascade

Each `explode` frame enters on a cell of at least four dots, removes them
all, and adds at most one dot per in-bounds neighbor.  Because `cellWeight`
is strictly superharmonic (`dirsWeight_lt`), every frame strictly decreases
`phi`, so fuel `phi g + 1` always suffices. -/

theorem explodeLoop_total (m : Nat) (color : String)
    (IH : ∀ r c (g : Grid), gridWF g → inRange r c → 4 ≤ (getCell g r c).dots →
      phi g < m → ∃ g', explodeF m r c color g = some g' ∧ phi g' < phi g ∧ gridWF g') :
    ∀ dirs r c (g : Grid) (B : Nat), gridWF g → phi g + dirsWeight dirs r c ≤ B → B < m →
      ∃ g', explodeLoop (fun nr nc g2 => explodeF m nr nc color g2) dirs r c color g
          = some g' ∧ phi g' ≤ B ∧ gridWF g' := by
  intro dirs
  induction dirs with
  | nil =>
    intro r c g B hw hB _
    exact ⟨g, rfl, by simpa [dirsWeight] using hB, hw⟩
  | cons d rest ihrest =>
    intro r c g B hw hB hBm
    by_cases hin : inRange (r + d.1) (c + d.2)
    · have hr8 : (r + d.1).toNat < 8 := by
        obtain ⟨a, b, _, _⟩ := hin; omega
      have hc8 : (c + d.2).toNat < 8 := by
        obtain ⟨a, b, e, f⟩ := hin; omega
      have hwB : phi g + (cellWeight (r + d.1).toNat (c + d.2).toNat
          + dirsWeight rest r c) ≤ B := by
        have : dirsWeight (d :: rest) r c
            = cellWeight (r + d.1).toNat (c + d.2).toNat + dirsWeight rest r c := by
          simp [dirsWeight, hin]
        omega
      set cell2 : Cell :=
        { dots := (getCell g (r + d.1) (c + d.2)).dots + 1, owner := some color } with hcell2
      have hphi2 : phi (setCell g (r + d.1) (c + d.2) cell2)
          = phi g + cellWeight (r + d.1).toNat (c + d.2).toNat := by
        simpa [setCell, getCell, hcell2] using
          phi_bumpCell hw hr8 hc8 (some color)
      have hw2 : gridWF (setCell g (r + d.1) (c + d.2) cell2) :=
        gridWF_setCellN hw _ _ _
      by_cases hfour : 4 ≤ cell2.dots
      · have hget2 : getCell (setCell g (r + d.1) (c + d.2) cell2) (r + d.1) (c + d.2)
            = cell2 := by
          simpa [setCell, getCell] using getCellN_setCellN_self hw hr8 hc8 cell2
        have hphi2B : phi (setCell g (r + d.1) (c + d.2) cell2) < m := by omega
        obtain ⟨g3, hg3, hlt3, hw3⟩ :=
          IH (r + d.1) (c + d.2) _ hw2 hin (by rw [hget2]; exact hfour) hphi2B
        obtain ⟨g', hg', hB', hw'⟩ := ihrest r c g3 B hw3 (by omega) hBm
        refine ⟨g', ?_, hB', hw'⟩
        simp only [explodeLoop, hin, if_true, hfour]
        simp only [← hcell2, hg3, if_true, hfour]
        exact hg'
      · obtain ⟨g', hg', hB', hw'⟩ :=
          ihrest r c (setCell g (r + d.1) (c + d.2) cell2) B hw2 (by omega) hBm
        refine ⟨g', ?_, hB', hw'⟩
        simp only [explodeLoop, hin, if_true]
        simp only [← hcell2, hfour, if_false]
        exact hg'
    · have hB' : phi g + dirsWeight rest r c ≤ B := by
        have : dirsWeight (d :: rest) r c = 0 + dirsWeight rest r c := by
          simp [dirsWeight, hin]
        omega
      obtain ⟨g', hg', hBg, hw'⟩ := ihrest r c g B hw hB' hBm
      refine ⟨g', ?_, hBg, hw'⟩
      simp only [explodeLoop, hin, if_false]
      exact hg'

theorem explodeF_total : ∀ n, ∀ r c color (g : Grid), gridWF g → inRange r c →
    4 ≤ (getCell g r c).dots → phi g < n →
    ∃ g', explodeF n r c color g = some g' ∧ phi g' < phi g ∧ gridWF g' := by
  intro n
  induction n using Nat.strong_induction_on with
  | _ n ihn =>
    intro r c color g hw hin hdots hphi
    match n, hphi with
    | Nat.succ m, hphi =>
      have hr8 : r.toNat < 8 := by obtain ⟨a, b, _, _⟩ := hin; omega
      have hc8 : c.toNat < 8 := by obtain ⟨a, b, e, f⟩ := hin; omega
      have hw1 : gridWF (setCell g r c emptyCell) := gridWF_setCellN hw _ _ _
      have hzero : phi (setCell g r c emptyCell)
          + (getCell g r c).dots * cellWeight r.toNat c.toNat = phi g := by
        simpa [setCell, getCell] using phi_zeroCell hw hr8 hc8
      have hwlt : dirsWeight directions r c + 1 ≤ 4 * cellWeight r.toNat c.toNat :=
        dirsWeight_lt hin
      have hmul : 4 * cellWeight r.toNat c.toNat
          ≤ (getCell g r c).dots * cellWeight r.toNat c.toNat :=
        Nat.mul_le_mul_right _ hdots
      have hpos : 0 < cellWeight r.toNat c.toNat := cellWeight_pos hr8 hc8
      have hphi_pos : 1 ≤ phi g := by omega
      have hloopB : phi (setCell g r c emptyCell) + dirsWeight directions r c
          ≤ phi g - 1 := by omega
      have hBm : phi g - 1 < m := by omega
      obtain ⟨g', hg', hB', hw'⟩ :=
        explodeLoop_total m color
          (fun r' c' g'' hw'' hin'' hd'' hp'' => ihn m (Nat.lt_succ_self m) r' c' color g'' hw'' hin'' hd'' hp'')
          directions r c (setCell g r c emptyCell) (phi g - 1) hw1 hloopB hBm
      refine ⟨g', ?_, by omega, hw'⟩
      simpa [explodeF] using hg'

/-! ## The resting-cell invariant through a cascade -/

/-- The at-rest cell invariant: at most three dots, and zero dots exactly
for unowned cells. -/
def cellInv (x : Cell) : Prop := x.dots ≤ 3 ∧ (x.dots = 0 ↔ x.owner = none)

instance (x : Cell) : Decidable (cellInv x) := by
  unfold cellInv; infer_instance

/-- The invariant at every cell of the board. -/
def gridInv (g : Grid) : Prop := ∀ i j, i < 8 → j < 8 → cellInv (getCellN g i j)

/-- The invariant at every cell except possibly the named one (the cell
about to explode). -/
def gridInvExcept (g : Grid) (r c : Nat) : Prop :=
  ∀ i j, i < 8 → j < 8 → i ≠ r ∨ j ≠ c → cellInv (getCellN g i j)

theorem cellInv_emptyCell : cellInv emptyCell := by
  constructor
  · decide
  · simp [emptyCell]

theorem gridInv_initGrid : gridInv initGrid := by
  intro i j hi hj
  have h : ∀ a < 8, ∀ b < 8, cellInv (getCellN initGrid a b) := by decide
  exact h i hi j hj

theorem explodeLoop_inv (m : Nat) (color : String)
    (IH : ∀ r c (g g' : Grid), explodeF m r c color g = some g' → gridWF g →
      inRange r c → gridInvExcept g r.toNat c.toNat → gridInv g' ∧ gridWF g') :
    ∀ dirs r c (g g' : Grid),
      explodeLoop (fun nr nc g2 => explodeF m nr nc color g2) dirs r c color g = some g' →
      gridWF g → gridInv g → gridInv g' ∧ gridWF g' := by
  intro dirs
  induction dirs with
  | nil =>
    intro r c g g' hg hw hinv
    simp only [explodeLoop, Option.some_inj] at hg
    exact hg ▸ ⟨hinv, hw⟩
  | cons d rest ihrest =>
    intro r c g g' hg hw hinv
    by_cases hin : inRange (r + d.1) (c + d.2)
    · have hr8 : (r + d.1).toNat < 8 := by obtain ⟨a, b, _, _⟩ := hin; omega
      have hc8 : (c + d.2).toNat < 8 := by obtain ⟨a, b, e, f⟩ := hin; omega
      simp only [explodeLoop, hin, if_true] at hg
      set cell2 : Cell :=
        { dots := (getCell g (r + d.1) (c + d.2)).dots + 1, owner := some color } with hcell2
      have hw2 : gridWF (setCell g (r + d.1) (c + d.2) cell2) :=
        gridWF_setCellN hw _ _ _
      by_cases hfour : 4 ≤ cell2.dots
      · simp only [hfour, if_true] at hg
        have hexc : gridInvExcept (setCell g (r + d.1) (c + d.2) cell2)
            (r + d.1).toNat (c + d.2).toNat := by
          intro i j hi hj hne
          rw [setCell, getCellN_setCellN_of_ne (by tauto) cell2]
          exact hinv i j hi hj
        rcases hrec : explodeF m (r + d.1) (c + d.2) color
            (setCell g (r + d.1) (c + d.2) cell2) with _ | g3
        · rw [hrec] at hg; exact absurd hg (by simp)
        · rw [hrec] at hg
          obtain ⟨hinv3, hw3⟩ := IH _ _ _ _ hrec hw2 hin hexc
          exact ihrest r c g3 g' hg hw3 hinv3
      · simp only [hfour, if_false] at hg
        have hinv2 : gridInv (setCell g (r + d.1) (c + d.2) cell2) := by
          intro i j hi hj
          by_cases hsame : i = (r + d.1).toNat ∧ j = (c + d.2).toNat
          · obtain ⟨h1, h2⟩ := hsame
            subst h1; subst h2
            rw [setCell, getCellN_setCellN_self hw hr8 hc8 cell2]
            refine ⟨by omega, ?_⟩
            simp [hcell2]
          · rw [setCell, getCellN_setCellN_of_ne (by tauto) cell2]
            exact hinv i j hi hj
        exact ihrest r c _ g' hg hw2 hinv2
    · simp only [explodeLoop, hin, if_false] at hg
      exact ihrest r c g g' hg hw hinv

theorem explodeF_inv : ∀ n, ∀ r c color (g g' : Grid),
    explodeF n r c color g = some g' → gridWF g → inRange r c →
    gridInvExcept g r.toNat c.toNat → gridInv g' ∧ gridWF g' := by
  intro n
  induction n using Nat.strong_induction_on with
  | _ n ihn =>
    intro r c color g g' hg hw hin hexc
    match n, hg with
    | Nat.succ m, hg =>
      have hr8 : r.toNat < 8 := by obtain ⟨a, b, _, _⟩ := hin; omega
      have hc8 : c.toNat < 8 := by obtain ⟨a, b, e, f⟩ := hin; omega
      have hw1 : gridWF (setCell g r c emptyCell) := gridWF_setCellN hw _ _ _
      have hinv1 : gridInv (setCell g r c emptyCell) := by
        intro i j hi hj
        by_cases hsame : i = r.toNat ∧ j = c.toNat
        · obtain ⟨h1, h2⟩ := hsame
          subst h1; subst h2
          rw [setCell, getCellN_setCellN_self hw hr8 hc8 emptyCell]
          exact cellInv_emptyCell
        · rw [setCell, getCellN_setCellN_of_ne (by tauto) emptyCell]
          exact hexc i j hi hj (by tauto)
      simp only [explodeF] at hg
      exact explodeLoop_inv m color
        (fun r' c' g₀ g₁ h₀ h₁ h₂ h₃ => ihn m (Nat.lt_succ_self m) r' c' color g₀ g₁ h₀ h₁ h₂ h₃)
        directions r c _ g' hg hw1 hinv1

/-! ## A successful cascade always leaves the mover on the board -/

/-- Some in-bounds cell is owned by `color` and carries at least one dot. -/
def hasColorCell (g : Grid) (color : String) : Prop :=
  ∃ i j, i < 8 ∧ j < 8 ∧ (getCellN g i j).owner = some color ∧ 1 ≤ (getCellN g i j).dots

theorem exists_dir_inRange {r c : Int} (h : inRange r c) :
    ∃ d ∈ directions, inRange (r + d.1) (c + d.2) := by
  obtain ⟨h0, h8, h0c, h8c⟩ := h
  have key : ∀ a < 8, ∀ b < 8,
      ∃ d ∈ directions, inRange (((a : Nat) : Int) + d.1) (((b : Nat) : Int) + d.2) := by
    decide
  have := key r.toNat (by omega) c.toNat (by omega)
  rwa [Int.toNat_of_nonneg h0, Int.toNat_of_nonneg h0c] at this

theorem explodeLoop_good (m : Nat) (color : String)
    (IH : ∀ r c (g g' : Grid), explodeF m r c color g = some g' → gridWF g →
      inRange r c → hasColorCell g' color ∧ gridWF g') :
    ∀ dirs r c (g g' : Grid),
      explodeLoop (fun nr nc g2 => explodeF m nr nc color g2) dirs r c color g = some g' →
      gridWF g →
      (hasColorCell g color ∨ ∃ d ∈ dirs, inRange (r + d.1) (c + d.2)) →
      hasColorCell g' color ∧ gridWF g' := by
  intro dirs
  induction dirs with
  | nil =>
    intro r c g g' hg hw hdis
    simp only [explodeLoop, Option.some_inj] at hg
    rcases hdis with hdis | hdis
    · exact hg ▸ ⟨hdis, hw⟩
    · simp at hdis
  | cons d rest ihrest =>
    intro r c g g' hg hw hdis
    by_cases hin : inRange (r + d.1) (c + d.2)
    · have hr8 : (r + d.1).toNat < 8 := by obtain ⟨a, b, _, _⟩ := hin; omega
      have hc8 : (c + d.2).toNat < 8 := by obtain ⟨a, b, e, f⟩ := hin; omega
      simp only [explodeLoop, hin, if_true] at hg
      set cell2 : Cell :=
        { dots := (getCell g (r + d.1) (c + d.2)).dots + 1, owner := some color } with hcell2
      have hw2 : gridWF (setCell g (r + d.1) (c + d.2) cell2) :=
        gridWF_setCellN hw _ _ _
      have hgood2 : hasColorCell (setCell g (r + d.1) (c + d.2) cell2) color := by
        refine ⟨(r + d.1).toNat, (c + d.2).toNat, hr8, hc8, ?_⟩
        rw [setCell, getCellN_setCellN_self hw hr8 hc8 cell2]
        exact ⟨rfl, by simp [hcell2]⟩
      by_cases hfour : 4 ≤ cell2.dots
      · simp only [hfour, if_true] at hg
        rcases hrec : explodeF m (r + d.1) (c + d.2) color
            (setCell g (r + d.1) (c + d.2) cell2) with _ | g3
        · rw [hrec] at hg; exact absurd hg (by simp)
        · rw [hrec] at hg
          obtain ⟨hgood3, hw3⟩ := IH _ _ _ _ hrec hw2 hin
          exact ihrest r c g3 g' hg hw3 (Or.inl hgood3)
      · simp only [hfour, if_false] at hg
        exact ihrest r c _ g' hg hw2 (Or.inl hgood2)
    · simp only [explodeLoop, hin, if_false] at hg
      rcases hdis with hdis | hdis
      · exact ihrest r c g g' hg hw (Or.inl hdis)
      · obtain ⟨d', hd', hind'⟩ := hdis
        rcases List.mem_cons.mp hd' with h | h
        · exact absurd (h ▸ hind') hin
        · exact ihrest r c g g' hg hw (Or.inr ⟨d', h, hind'⟩)

theorem explodeF_good : ∀ n, ∀ r c color (g g' : Grid),
    explodeF n r c color g = some g' → gridWF g → inRange r c →
    hasColorCell g' color ∧ gridWF g' := by
  intro n
  induction n using Nat.strong_induction_on with
  | _ n ihn =>
    intro r c color g g' hg hw hin
    match n, hg with
    | Nat.succ m, hg =>
      have hw1 : gridWF (setCell g r c emptyCell) := gridWF_setCellN hw _ _ _
      simp only [explodeF] at hg
      exact explodeLoop_good m color
        (fun r' c' g₀ g₁ h₀ h₁ h₂ => ihn m (Nat.lt_succ_self m) r' c' color g₀ g₁ h₀ h₁ h₂)
        directions r c _ g' hg hw1 (Or.inr (exists_dir_inRange hin))

/-! ## Lemmas about `check_winner`'s board scan -/

/-- Sum of the dots of every cell of the board (owned or not). -/
def totalDotsAll (g : Grid) : Nat := (g.map (fun row => (row.map (·.dots)).sum)).sum

theorem scanStep_owner_mono {acc : List String × Nat} {o : String} (h : o ∈ acc.1)
    (cell : Cell) : o ∈ (scanStep acc cell).1 := by
  unfold scanStep
  rcases cell.owner with _ | o'
  · exact h
  · by_cases ho' : o' ∈ acc.1 <;> simp [ho', h]

theorem scanCells_owner_mono {o : String} :
    ∀ (cells : List Cell) (acc : List String × Nat), o ∈ acc.1 →
      o ∈ (cells.foldl scanStep acc).1 := by
  intro cells
  induction cells with
  | nil => intro acc h; exact h
  | cons cell rest ih =>
    intro acc h
    exact ih _ (scanStep_owner_mono h cell)

theorem scanStep_total_mono (acc : List String × Nat) (cell : Cell) :
    acc.2 ≤ (scanStep acc cell).2 := by
  unfold scanStep
  rcases cell.owner with _ | o' <;> simp

theorem scanCells_total_mono :
    ∀ (cells : List Cell) (acc : List String × Nat), acc.2 ≤ (cells.foldl scanStep acc).2 := by
  intro cells
  induction cells with
  | nil => intro acc; exact le_refl _
  | cons cell rest ih =>
    intro acc
    exact le_trans (scanStep_total_mono acc cell) (ih _)

theorem scanCells_owner_of_mem {cell : Cell} {o : String} (ho : cell.owner = some o) :
    ∀ (cells : List Cell) (acc : List String × Nat), cell ∈ cells →
      o ∈ (cells.foldl scanStep acc).1 := by
  intro cells
  induction cells with
  | nil => intro acc h; simp at h
  | cons hd rest ih =>
    intro acc hmem
    rcases List.mem_cons.mp hmem with h | h
    · subst h
      refine scanCells_owner_mono rest _ ?_
      unfold scanStep
      rw [ho]
      by_cases hin : o ∈ acc.1 <;> simp [hin]
    · exact ih _ h

theorem scanCells_total_of_mem {cell : Cell} {o : String} (ho : cell.owner = some o) :
    ∀ (cells : List Cell) (acc : List String × Nat), cell ∈ cells →
      cell.dots ≤ (cells.foldl scanStep acc).2 := by
  intro cells
  induction cells with
  | nil => intro acc h; simp at h
  | cons hd rest ih =>
    intro acc hmem
    rcases List.mem_cons.mp hmem with h | h
    · subst h
      refine le_trans ?_ (scanCells_total_mono rest _)
      unfold scanStep
      rw [ho]
      simp
    · exact ih _ h

theorem scanCells_total_le :
    ∀ (cells : List Cell) (acc : List String × Nat),
      (cells.foldl scanStep acc).2 ≤ acc.2 + (cells.map (·.dots)).sum := by
  intro cells
  induction cells with
  | nil => intro acc; simp
  | cons hd rest ih =>
    intro acc
    refine le_trans (ih _) ?_
    have : (scanStep acc hd).2 ≤ acc.2 + hd.dots := by
      unfold scanStep
      rcases hd.owner with _ | o' <;> simp
    simp only [List.map_cons, List.sum_cons]
    omega

theorem scanBoard_owner_mono {o : String} :
    ∀ (rows : List (List Cell)) (acc : List String × Nat), o ∈ acc.1 →
      o ∈ (rows.foldl (fun acc row => row.foldl scanStep acc) acc).1 := by
  intro rows
  induction rows with
  | nil => intro acc h; exact h
  | cons row rest ih =>
    intro acc h
    exact ih _ (scanCells_owner_mono row acc h)

theorem scanBoard_total_mono :
    ∀ (rows : List (List Cell)) (acc : List String × Nat),
      acc.2 ≤ (rows.foldl (fun acc row => row.foldl scanStep acc) acc).2 := by
  intro rows
  induction rows with
  | nil => intro acc; exact le_refl _
  | cons row rest ih =>
    intro acc
    exact le_trans (scanCells_total_mono row acc) (ih _)

theorem scanBoard_owner_of_mem {g : Grid} {row : List Cell} {cell : Cell} {o : String}
    (hrow : row ∈ g) (hcell : cell ∈ row) (ho : cell.owner = some o) :
    o ∈ (scanBoard g).1 := by
  have gen : ∀ (rows : List (List Cell)) (acc : List String × Nat), row ∈ rows →
      o ∈ (rows.foldl (fun acc row => row.foldl scanStep acc) acc).1 := by
    intro rows
    induction rows with
    | nil => intro acc h; simp at h
    | cons r rest ih =>
      intro acc hmem
      rcases List.mem_cons.mp hmem with h | h
      · subst h
        exact scanBoard_owner_mono rest _ (scanCells_owner_of_mem ho row _ hcell)
      · exact ih _ h
  exact gen g ([], 0) hrow

theorem scanBoard_total_of_mem {g : Grid} {row : List Cell} {cell : Cell} {o : String}
    (hrow : row ∈ g) (hcell : cell ∈ row) (ho : cell.owner = some o) :
    cell.dots ≤ (scanBoard g).2 := by
  have gen : ∀ (rows : List (List Cell)) (acc : List String × Nat), row ∈ rows →
      cell.dots ≤ (rows.foldl (fun acc row => row.foldl scanStep acc) acc).2 := by
    intro rows
    induction rows with
    | nil => intro acc h; simp at h
    | cons r rest ih =>
      intro acc hmem
      rcases List.mem_cons.mp hmem with h | h
      · subst h
        exact le_trans (scanCells_total_of_mem ho row _ hcell) (scanBoard_total_mono rest _)
      · exact ih _ h
  exact gen g ([], 0) hrow

theorem scanBoard_total_le (g : Grid) : (scanBoard g).2 ≤ totalDotsAll g := by
  unfold scanBoard totalDotsAll
  have gen : ∀ (rows : List (List Cell)) (acc : List String × Nat),
      (rows.foldl (fun acc row => row.foldl scanStep acc) acc).2
        ≤ acc.2 + (rows.map (fun row => (row.map (·.dots)).sum)).sum := by
    intro rows
    induction rows with
    | nil => intro acc; simp
    | cons row rest ih =>
      intro acc
      refine le_trans (ih _) ?_
      have := scanCells_total_le row acc
      simp only [List.map_cons, List.sum_cons]
      omega
  simpa using gen g ([], 0)

/-- The cell of a well-formed grid at in-bounds indices is in some row. -/
theorem getCellN_mem {g : Grid} (hw : gridWF g) {i j : Nat} (hi : i < 8) (hj : j < 8) :
    ∃ row ∈ g, getCellN g i j ∈ row := by
  have hiL : i < g.length := by rw [hw.1]; exact hi
  have hrow : g.getD i [] = g[i] := List.getD_eq_getElem g [] hiL
  refine ⟨g.getD i [], by rw [hrow]; exact List.getElem_mem hiL, ?_⟩
  have hlen : (g.getD i []).length = 8 := length_row_of_wf hw hi
  unfold getCellN
  rw [List.getD_eq_getElem (g.getD i []) emptyCell (by rw [hlen]; exact hj)]
  exact List.getElem_mem _

/-! ## Characterizing the click/move path -/

theorem removeFromList_some {ps : List Player} {sid : String} {ps' : List Player}
    {p : Player} (h : removeFromList ps sid = (ps', some p)) :
    ps'.length + 1 = ps.length ∧ p ∈ ps := by
  induction ps generalizing ps' with
  | nil => simp [removeFromList] at h
  | cons q rest ih =>
    by_cases hq : q.id == sid
    · simp only [removeFromList, hq, if_true, Prod.mk.injEq, Option.some_inj] at h
      obtain ⟨h1, h2⟩ := h
      constructor
      · rw [← h1]; rfl
      · rw [← h2]; exact List.mem_cons_self _ _
    · simp only [removeFromList, hq, if_false] at h
      have h1 : q :: (removeFromList rest sid).1 = ps' := congrArg Prod.fst h
      have h2 : (removeFromList rest sid).2 = some p := congrArg Prod.snd h
      obtain ⟨hl, hm⟩ := ih (Prod.ext rfl h2)
      refine ⟨?_, List.mem_cons_of_mem _ hm⟩
      rw [← h1]
      simp only [List.length_cons]
      rw [← hl]

/-- The room updated by a first-move click. -/
def firstMoveRoom (game : GameRoom) (r c : Int) (color : String) : GameRoom :=
  { game with
      grid := setCell game.grid r c { dots := 3, owner := some color }
      first_moves_done := dictSet game.first_moves_done color true }

/-- The room updated by an increment click. -/
def incrementRoom (game : GameRoom) (r c : Int) : GameRoom :=
  { game with
      grid := setCell game.grid r c
        { dots := (getCell game.grid r c).dots + 1, owner := (getCell game.grid r c).owner } }

theorem handleClick_first_success {game : GameRoom} {r c : Int} {color : String}
    (hfd : dictGet game.first_moves_done color = some false)
    (hown : (getCell game.grid r c).owner = none) :
    handleClick game r c color = some (firstMoveRoom game r c color, true) := by
  unfold handleClick firstMoveRoom
  rw [hfd]
  simp [hown]

theorem handleClick_first_reject {game : GameRoom} {r c : Int} {color : String}
    (hfd : dictGet game.first_moves_done color = some false)
    (hown : (getCell game.grid r c).owner ≠ none) :
    handleClick game r c color = some (game, false) := by
  unfold handleClick
  rw [hfd]
  simp [hown]

theorem handleClick_inc_success {game : GameRoom} {r c : Int} {color : String}
    (hfd : dictGet game.first_moves_done color = some true)
    (hown : (getCell game.grid r c).owner = some color) :
    handleClick game r c color = some (incrementRoom game r c, true) := by
  unfold handleClick incrementRoom
  rw [hfd]
  simp [hown]

theorem handleClick_inc_reject {game : GameRoom} {r c : Int} {color : String}
    (hfd : dictGet game.first_moves_done color = some true)
    (hown : (getCell game.grid r c).owner ≠ some color) :
    handleClick game r c color = some (game, false) := by
  unfold handleClick
  rw [hfd]
  simp [hown]

/-- A click can only fail by the ownership check, and then it mutates
nothing. -/
theorem handleClick_false {game : GameRoom} {r c : Int} {color : String} {game₂ : GameRoom}
    (h : handleClick game r c color = some (game₂, false)) : game₂ = game := by
  rcases hfd : dictGet game.first_moves_done color with _ | fd
  · unfold handleClick at h
    rw [hfd] at h
    simp at h
  · rcases fd with _ | _
    · by_cases hown : (getCell game.grid r c).owner = none
      · rw [handleClick_first_success hfd hown] at h
        simp at h
      · rw [handleClick_first_reject hfd hown] at h
        simp only [Option.some_inj, Prod.mk.injEq] at h
        exact h.1.symm
    · by_cases hown : (getCell game.grid r c).owner = some color
      · rw [handleClick_inc_success hfd hown] at h
        simp at h
      · rw [handleClick_inc_reject hfd hown] at h
        simp only [Option.some_inj, Prod.mk.injEq] at h
        exact h.1.symm

theorem moveFinish_gameOver {game : GameRoom} {w : String} (h : checkWinner game = some w) :
    moveFinish game = (game, .gameOver w) := by
  unfold moveFinish
  rw [h]

theorem moveFinish_advanced {game : GameRoom} (h : checkWinner game = none) :
    moveFinish game
      = ({ game with turn_index := (game.turn_index + 1) % game.players.length },
         .advanced) := by
  unfold moveFinish
  rw [h]

theorem moveClick_first_reject {game : GameRoom} {color : String} {r c : Int}
    (hfd : dictGet game.first_moves_done color = some false)
    (hown : (getCell game.grid r c).owner ≠ none) :
    moveClick game color r c = (game, .firstMoveInvalid) := by
  unfold moveClick
  rw [handleClick_first_reject hfd hown]
  simp [hfd]

theorem moveClick_inc_reject {game : GameRoom} {color : String} {r c : Int}
    (hfd : dictGet game.first_moves_done color = some true)
    (hown : (getCell game.grid r c).owner ≠ some color) :
    moveClick game color r c = (game, .notOwnCell) := by
  unfold moveClick
  rw [handleClick_inc_reject hfd hown]
  simp [hfd]

theorem moveClick_first_success {game : GameRoom} {color : String} {r c : Int}
    (hw : gridWF game.grid) (hin : inRange r c)
    (hfd : dictGet game.first_moves_done color = some false)
    (hown : (getCell game.grid r c).owner = none) :
    moveClick game color r c = moveFinish (firstMoveRoom game r c color) := by
  obtain ⟨h0, h8, h0c, h8c⟩ := hin
  have hfd' : dictGet (firstMoveRoom game r c color).first_moves_done color = some true := by
    simp [firstMoveRoom, dictGet_dictSet_self]
  have hcell : getCell (firstMoveRoom game r c color).grid r c
      = { dots := 3, owner := some color } := by
    simp only [firstMoveRoom, getCell, setCell]
    exact getCellN_setCellN_self hw (by omega) (by omega) _
  unfold moveClick
  rw [handleClick_first_success hfd hown]
  simp [hfd', hcell]

theorem moveClick_inc_small {game : GameRoom} {color : String} {r c : Int}
    (hw : gridWF game.grid) (hin : inRange r c)
    (hfd : dictGet game.first_moves_done color = some true)
    (hown : (getCell game.grid r c).owner = some color)
    (hlt : (getCell game.grid r c).dots + 1 < 4) :
    moveClick game color r c = moveFinish (incrementRoom game r c) := by
  obtain ⟨h0, h8, h0c, h8c⟩ := hin
  have hfd' : dictGet (incrementRoom game r c).first_moves_done color = some true := hfd
  have hcell : getCell (incrementRoom game r c).grid r c
      = { dots := (getCell game.grid r c).dots + 1, owner := (getCell game.grid r c).owner } := by
    simp only [incrementRoom, getCell, setCell]
    exact getCellN_setCellN_self hw (by omega) (by omega) _
  have hc : ¬ 4 ≤ (getCell game.grid r c).dots + 1 := by omega
  unfold moveClick
  rw [handleClick_inc_success hfd hown]
  simp [hfd', hcell, hc]

theorem moveClick_inc_explode {game : GameRoom} {color : String} {r c : Int}
    (hw : gridWF game.grid) (hin : inRange r c)
    (hfd : dictGet game.first_moves_done color = some true)
    (hown : (getCell game.grid r c).owner = some color)
    (hge : 4 ≤ (getCell game.grid r c).dots + 1) :
    ∃ g', explodeF (phi (incrementRoom game r c).grid + 1) r c color
        (incrementRoom game r c).grid = some g'
      ∧ phi g' < phi (incrementRoom game r c).grid ∧ gridWF g'
      ∧ moveClick game color r c = moveFinish
          { incrementRoom game r c with grid := g' } := by
  obtain ⟨h0, h8, h0c, h8c⟩ := hin
  have hw2 : gridWF (incrementRoom game r c).grid := by
    simp only [incrementRoom, setCell]
    exact gridWF_setCellN hw _ _ _
  have hcell : getCell (incrementRoom game r c).grid r c
      = { dots := (getCell game.grid r c).dots + 1, owner := (getCell game.grid r c).owner } := by
    simp only [incrementRoom, getCell, setCell]
    exact getCellN_setCellN_self hw (by omega) (by omega) _
  have hdots : 4 ≤ (getCell (incrementRoom game r c).grid r c).dots := by
    rw [hcell]
    exact hge
  obtain ⟨g', hg', hlt, hw'⟩ := explodeF_total (phi (incrementRoom game r c).grid + 1)
    r c color (incrementRoom game r c).grid hw2 ⟨h0, h8, h0c, h8c⟩ hdots
    (Nat.lt_succ_self _)
  refine ⟨g', hg', hlt, hw', ?_⟩
  have hfd' : dictGet (incrementRoom game r c).first_moves_done color = some true := hfd
  unfold moveClick
  rw [handleClick_inc_success hfd hown]
  simp [hfd', hcell, hge, hg']

/-! ## The room and registry invariants -/

/-- Invariant of every room the server ever holds: well-formed board, the
at-rest cell invariant, a coherent turn pointer, and a roster within
capacity. -/
def RoomInv (g : GameRoom) : Prop :=
  gridWF g.grid ∧ gridInv g.grid ∧
  (g.players = [] → g.turn_index = 0) ∧
  (g.players ≠ [] → g.turn_index < g.players.length) ∧
  (g.game_started = true → g.players ≠ []) ∧
  (g.players ≠ [] → (g.players.length : Int) ≤ g.max_players)

/-- Invariant of the room registry. -/
def RegInv (reg : Registry) : Prop := ∀ kv ∈ reg, RoomInv kv.2

theorem roomInv_initRoom (rid : String) (maxp : Int) : RoomInv (initRoom rid maxp) := by
  refine ⟨gridWF_initGrid, gridInv_initGrid, ?_, ?_, ?_, ?_⟩ <;> simp [initRoom]

theorem roomInv_addPlayer {g : GameRoom} (h : RoomInv g) (sid name : String) :
    RoomInv (addPlayer g sid name).1 := by
  obtain ⟨hwf, hinv, hempty, hturn, hstart, hmax⟩ := h
  unfold addPlayer
  cases hfind : g.players.find? (fun p => p.id == sid) with
  | some p => exact ⟨hwf, hinv, hempty, hturn, hstart, hmax⟩
  | none =>
    by_cases hlen : (g.players.length : Int) < g.max_players
    · rw [if_pos hlen]
      cases hc : colors.get? g.players.length with
      | none => exact ⟨hwf, hinv, hempty, hturn, hstart, hmax⟩
      | some color =>
        refine ⟨hwf, hinv, ?_, ?_, ?_, ?_⟩
        · intro hx
          simp at hx
        · intro _
          simp only [List.length_append, List.length_cons, List.length_nil]
          by_cases hemp : g.players = []
          · rw [hempty hemp]
            omega
          · have := hturn hemp
            omega
        · intro _
          simp
        · intro _
          simp only [List.length_append, List.length_cons, List.length_nil]
          push_cast
          push_cast at hlen
          omega
    · rw [if_neg hlen]
      exact ⟨hwf, hinv, hempty, hturn, hstart, hmax⟩

theorem roomInv_removePlayer {g : GameRoom} (h : RoomInv g) (sid : String) :
    RoomInv (removePlayer g sid).1 := by
  obtain ⟨hwf, hinv, hempty, hturn, hstart, hmax⟩ := h
  unfold removePlayer
  cases hrm : removeFromList g.players sid with
  | mk ps' res =>
    cases res with
    | none => exact ⟨hwf, hinv, hempty, hturn, hstart, hmax⟩
    | some p =>
      obtain ⟨hlen, hmem⟩ := removeFromList_some hrm
      have hne : g.players ≠ [] := by
        intro hx
        rw [hx] at hmem
        simp at hmem
      have hlenle := hmax hne
      have hlt : ((ps'.length : Int) < g.max_players) := by
        have h1 : ps'.length + 1 = g.players.length := hlen
        push_cast at hlenle ⊢
        omega
      refine ⟨hwf, hinv, ?_, ?_, ?_, ?_⟩
      · intro hx
        subst hx
        simp
      · intro hne'
        have hpos : 0 < ps'.length := List.length_pos.mpr hne'
        by_cases hcl : ps'.length ≤ g.turn_index
        · simp only [if_pos hcl]
          exact hpos
        · simp only [if_neg hcl]
          omega
      · intro hst
        simp only [if_pos hlt] at hst
        exact absurd hst (by simp)
      · intro _
        push_cast at hlenle ⊢
        omega

theorem handleClick_none {game : GameRoom} {r c : Int} {color : String}
    (hfd : dictGet game.first_moves_done color = none) :
    handleClick game r c color = none := by
  unfold handleClick
  rw [hfd]

theorem roomInv_moveFinish {game : GameRoom} (h : RoomInv game)
    (hne : game.players ≠ []) :
    RoomInv (moveFinish game).1 := by
  obtain ⟨hwf, hinv, hempty, hturn, hstart, hstartmax⟩ := h
  unfold moveFinish
  cases checkWinner game with
  | some w => exact ⟨hwf, hinv, hempty, hturn, hstart, hstartmax⟩
  | none =>
    refine ⟨hwf, hinv, ?_, ?_, ?_, ?_⟩
    · intro hx
      exact absurd hx hne
    · intro _
      exact Nat.mod_lt _ (List.length_pos.mpr hne)
    · intro _
      exact hne
    · intro _
      exact hstartmax hne

theorem roomInv_firstMoveRoom {game : GameRoom} (h : RoomInv game) {r c : Int}
    (hin : inRange r c) (color : String) :
    RoomInv (firstMoveRoom game r c color) := by
  obtain ⟨hwf, hinv, hempty, hturn, hstart, hmax⟩ := h
  obtain ⟨h0, h8, h0c, h8c⟩ := hin
  refine ⟨?_, ?_, hempty, hturn, hstart, hmax⟩
  · simp only [firstMoveRoom, setCell]
    exact gridWF_setCellN hwf _ _ _
  · intro i j hi hj
    simp only [firstMoveRoom, setCell]
    by_cases hsame : i = r.toNat ∧ j = c.toNat
    · obtain ⟨h1, h2⟩ := hsame
      subst h1; subst h2
      rw [getCellN_setCellN_self hwf (by omega) (by omega) _]
      exact ⟨by simp [cellInv], by simp⟩
    · rw [getCellN_setCellN_of_ne (by tauto) _]
      exact hinv i j hi hj

theorem roomInv_incrementRoom {game : GameRoom} (h : RoomInv game) {r c : Int}
    (hin : inRange r c) {color : String}
    (hown : (getCell game.grid r c).owner = some color)
    (hle : (getCell game.grid r c).dots + 1 ≤ 3) :
    RoomInv (incrementRoom game r c) := by
  obtain ⟨hwf, hinv, hempty, hturn, hstart, hmax⟩ := h
  obtain ⟨h0, h8, h0c, h8c⟩ := hin
  refine ⟨?_, ?_, hempty, hturn, hstart, hmax⟩
  · simp only [incrementRoom, setCell]
    exact gridWF_setCellN hwf _ _ _
  · intro i j hi hj
    simp only [incrementRoom, setCell]
    by_cases hsame : i = r.toNat ∧ j = c.toNat
    · obtain ⟨h1, h2⟩ := hsame
      subst h1; subst h2
      rw [getCellN_setCellN_self hwf (by omega) (by omega) _]
      exact ⟨by simpa using hle, by simp [hown]⟩
    · rw [getCellN_setCellN_of_ne (by tauto) _]
      exact hinv i j hi hj

theorem roomInv_moveClick {game : GameRoom} {color : String} {r c : Int}
    (h : RoomInv game) (hin : inRange r c) (hne : game.players ≠ []) :
    RoomInv (moveClick game color r c).1 := by
  have hwf := h.1
  have hinv := h.2.1
  cases hfd : dictGet game.first_moves_done color with
  | none =>
    unfold moveClick
    rw [handleClick_none hfd]
    exact h
  | some fd =>
    cases fd with
    | false =>
      by_cases hown : (getCell game.grid r c).owner = none
      · rw [moveClick_first_success hwf hin hfd hown]
        exact roomInv_moveFinish (roomInv_firstMoveRoom h hin color) hne
      · rw [moveClick_first_reject hfd hown]
        exact h
    | true =>
      by_cases hown : (getCell game.grid r c).owner = some color
      · by_cases hge : 4 ≤ (getCell game.grid r c).dots + 1
        · obtain ⟨g', hg', hphi, hwf', hmc⟩ :=
            moveClick_inc_explode hwf hin hfd hown hge
          rw [hmc]
          obtain ⟨h0, h8, h0c, h8c⟩ := hin
          have hexc : gridInvExcept (incrementRoom game r c).grid r.toNat c.toNat := by
            intro i j hi hj hne'
            simp only [incrementRoom, setCell]
            rw [getCellN_setCellN_of_ne (hne'.imp Ne.symm Ne.symm) _]
            exact hinv i j hi hj
          have hwf2 : gridWF (incrementRoom game r c).grid := by
            simp only [incrementRoom, setCell]
            exact gridWF_setCellN hwf _ _ _
          obtain ⟨hinv', _⟩ := explodeF_inv _ r c color _ g' hg' hwf2 ⟨h0, h8, h0c, h8c⟩ hexc
          obtain ⟨_, _, hempty, hturn, hstart, hmax⟩ := h
          exact roomInv_moveFinish ⟨hwf', hinv', hempty, hturn, hstart, hmax⟩ hne
        · rw [moveClick_inc_small hwf hin hfd hown (by omega)]
          exact roomInv_moveFinish
            (roomInv_incrementRoom h hin hown (by omega)) hne
      · rw [moveClick_inc_reject hfd hown]
        exact h

/-- The first stage of `on_move` inside the room: the clamped room. -/
def clampedRoom (game : GameRoom) : GameRoom :=
  if game.players.length ≤ game.turn_index then { game with turn_index := 0 } else game

theorem moveTurn_eq (game : GameRoom) (sid : String) (r c : Int) :
    moveTurn game sid r c =
      match (clampedRoom game).players.get? (clampedRoom game).turn_index with
      | none => (clampedRoom game, .crashed)
      | some curr =>
        if sid = curr.id then moveClick (clampedRoom game) curr.color r c
        else (clampedRoom game, .notYourTurn) := rfl

theorem roomInv_clampedRoom {game : GameRoom} (h : RoomInv game) :
    RoomInv (clampedRoom game) := by
  obtain ⟨hwf, hinv, hempty, hturn, hstart, hmax⟩ := h
  unfold clampedRoom
  by_cases hcl : game.players.length ≤ game.turn_index
  · rw [if_pos hcl]
    refine ⟨hwf, hinv, fun _ => rfl, ?_, hstart, hmax⟩
    intro hne
    exact List.length_pos.mpr hne
  · rw [if_neg hcl]
    exact ⟨hwf, hinv, hempty, hturn, hstart, hmax⟩

theorem moveTurn_none {game : GameRoom} (sid : String) (r c : Int)
    (h : (clampedRoom game).players.get? (clampedRoom game).turn_index = none) :
    moveTurn game sid r c = (clampedRoom game, .crashed) := by
  rw [moveTurn_eq, h]

theorem moveTurn_some {game : GameRoom} (sid : String) (r c : Int) {curr : Player}
    (h : (clampedRoom game).players.get? (clampedRoom game).turn_index = some curr) :
    moveTurn game sid r c =
      if sid = curr.id then moveClick (clampedRoom game) curr.color r c
      else (clampedRoom game, .notYourTurn) := by
  rw [moveTurn_eq, h]

theorem roomInv_moveTurn {game : GameRoom} (h : RoomInv game) {r c : Int}
    (hin : inRange r c) (sid : String) :
    RoomInv (moveTurn game sid r c).1 := by
  have h₁ : RoomInv (clampedRoom game) := roomInv_clampedRoom h
  cases hcurr : (clampedRoom game).players.get? (clampedRoom game).turn_index with
  | none =>
    rw [moveTurn_none sid r c hcurr]
    exact h₁
  | some curr =>
    have hne : (clampedRoom game).players ≠ [] := by
      intro hx
      rw [hx] at hcurr
      simp at hcurr
    rw [moveTurn_some sid r c hcurr]
    by_cases hsid : sid = curr.id
    · rw [if_pos hsid]
      exact roomInv_moveClick h₁ hin hne
    · rw [if_neg hsid]
      exact h₁

theorem regInv_dictSet {reg : Registry} (h : RegInv reg) {rid : String} {game : GameRoom}
    (hg : RoomInv game) : RegInv (dictSet reg rid game) := by
  intro kv hkv
  rcases mem_dictSet hkv with hmem | heq
  · exact h kv hmem
  · rw [heq]
    exact hg

theorem onMove_noRoom {reg : Registry} {rid : String} (sid : String) (r c : Int)
    (h : dictGet reg rid = none) : onMove reg rid sid r c = (reg, .roomNotFound) := by
  unfold onMove
  rw [h]

theorem onMove_room {reg : Registry} {rid : String} (sid : String) (r c : Int)
    {game : GameRoom} (h : dictGet reg rid = some game) :
    onMove reg rid sid r c =
      if game.game_started = false then (reg, .notStarted)
      else if ¬ inRange r c then (reg, .outOfBounds)
      else (dictSet reg rid (moveTurn game sid r c).1, (moveTurn game sid r c).2) := by
  unfold onMove
  rw [h]

theorem regInv_onMove {reg : Registry} (h : RegInv reg) (rid sid : String) (r c : Int) :
    RegInv (onMove reg rid sid r c).1 := by
  cases hget : dictGet reg rid with
  | none =>
    rw [onMove_noRoom sid r c hget]
    exact h
  | some game =>
    rw [onMove_room sid r c hget]
    by_cases hst : game.game_started = false
    · rw [if_pos hst]
      exact h
    · rw [if_neg hst]
      by_cases hin : ¬ inRange r c
      · rw [if_pos hin]
        exact h
      · rw [if_neg hin]
        exact regInv_dictSet h
          (roomInv_moveTurn (h _ (mem_of_dictGet_eq_some hget)) (not_not.mp hin) sid)

theorem joinAdd_fst (reg : Registry) (rid : String) (game : GameRoom) (sid name : String) :
    (joinAdd reg rid game sid name).1 = dictSet reg rid (addPlayer game sid name).1 := by
  unfold joinAdd
  cases h : addPlayer game sid name with
  | mk game' res => cases res <;> rfl

theorem onJoin_room {reg : Registry} {rid name : String} (pc : Int) (sid : String)
    (h1 : ¬ (rid = "" ∨ name = "")) (h2 : ¬ 20 < name.length) (h3 : ¬ 50 < rid.length)
    {game : GameRoom} (hget : dictGet reg rid = some game) :
    onJoin reg rid name pc sid =
      if name ∈ game.players.map (·.name) then (reg, .duplicateName)
      else if game.max_players ≤ (game.players.length : Int) then (reg, .roomFull)
      else joinAdd reg rid game sid name := by
  unfold onJoin
  rw [if_neg h1, if_neg h2, if_neg h3, hget]

theorem onJoin_fresh {reg : Registry} {rid name : String} (pc : Int) (sid : String)
    (h1 : ¬ (rid = "" ∨ name = "")) (h2 : ¬ 20 < name.length) (h3 : ¬ 50 < rid.length)
    (hget : dictGet reg rid = none) :
    onJoin reg rid name pc sid
      = joinAdd (dictSet reg rid (initRoom rid pc)) rid (initRoom rid pc) sid name := by
  unfold onJoin
  rw [if_neg h1, if_neg h2, if_neg h3, hget]

theorem regInv_onJoin {reg : Registry} (h : RegInv reg) (rid name : String) (pc : Int)
    (sid : String) : RegInv (onJoin reg rid name pc sid).1 := by
  by_cases h1 : rid = "" ∨ name = ""
  · unfold onJoin
    rw [if_pos h1]
    exact h
  · by_cases h2 : 20 < name.length
    · unfold onJoin
      rw [if_neg h1, if_pos h2]
      exact h
    · by_cases h3 : 50 < rid.length
      · unfold onJoin
        rw [if_neg h1, if_neg h2, if_pos h3]
        exact h
      · cases hget : dictGet reg rid with
        | some game =>
          rw [onJoin_room pc sid h1 h2 h3 hget]
          by_cases h4 : name ∈ game.players.map (·.name)
          · rw [if_pos h4]
            exact h
          · rw [if_neg h4]
            by_cases h5 : game.max_players ≤ (game.players.length : Int)
            · rw [if_pos h5]
              exact h
            · rw [if_neg h5]
              have hroom : RoomInv game := h _ (mem_of_dictGet_eq_some hget)
              rw [joinAdd_fst]
              exact regInv_dictSet h (roomInv_addPlayer hroom sid name)
        | none =>
          rw [onJoin_fresh pc sid h1 h2 h3 hget, joinAdd_fst]
          exact regInv_dictSet (regInv_dictSet h (roomInv_initRoom rid pc))
            (roomInv_addPlayer (roomInv_initRoom rid pc) sid name)

theorem regInv_onDisconnect {reg : Registry} (h : RegInv reg) (sid : String) :
    RegInv (onDisconnect reg sid) := by
  intro kv hkv
  unfold onDisconnect at hkv
  obtain ⟨kv₀, hmem, hf⟩ := List.mem_filterMap.mp hkv
  have hroom : RoomInv kv₀.2 := h _ hmem
  cases hrm : (removePlayer kv₀.2 sid).2 with
  | none =>
    simp only [hrm] at hf
    injection hf with hf'
    exact hf' ▸ hroom
  | some x =>
    simp only [hrm] at hf
    by_cases hemp : (removePlayer kv₀.2 sid).1.players = []
    · rw [if_pos hemp] at hf
      simp at hf
    · rw [if_neg hemp] at hf
      injection hf with hf'
      rw [← hf']
      exact roomInv_removePlayer hroom sid

theorem regInv_stepEvent {reg : Registry} (h : RegInv reg) (ev : Event) :
    RegInv (stepEvent reg ev) := by
  cases ev with
  | join rid name pc sid => exact regInv_onJoin h rid name pc sid
  | move rid sid r c => exact regInv_onMove h rid sid r c
  | disconnect sid => exact regInv_onDisconnect h sid

theorem regInv_runEvents (evs : List Event) : RegInv (runEvents evs) := by
  unfold runEvents
  have gen : ∀ (l : List Event) (reg : Registry), RegInv reg →
      RegInv (l.foldl stepEvent reg) := by
    intro l
    induction l with
    | nil =>
      intro reg h
      exact h
    | cons e rest ih =>
      intro reg h
      exact ih _ (regInv_stepEvent h e)
  exact gen evs [] (fun kv hkv => absurd hkv (by simp))

theorem regInv_of_reachable {reg : Registry} (h : Reachable reg) : RegInv reg := by
  obtain ⟨evs, hevs⟩ := h
  rw [← hevs]
  exact regInv_runEvents evs

/-! ## The specified cascade algorithm (for the refinement claim) -/

/-- Modelled from the spec's cascade step 3-4: visit one neighbor; when in
bounds, unconditionally capture it and add one dot, recursing into the full
sub-cascade at once when it reaches four dots. -/
def cascadeVisit (recur : Int → Int → Grid → Option Grid) (color : String)
    (nr nc : Int) (g : Grid) : Option Grid :=
  if inRange nr nc then
    let cell2 : Cell := { dots := (getCell g nr nc).dots + 1, owner := some color }
    let g2 := setCell g nr nc cell2
    if 4 ≤ cell2.dots then recur nr nc g2 else some g2
  else some g

/-- Modelled from the spec's cascade description: reset the triggering cell
to neutral, then visit east (c+1), west (c-1), south (r+1), north (r-1) in
exactly that order, each neighbor's full sub-cascade completing before the
next sibling is processed. -/
def cascadeSpecF : Nat → Int → Int → String → Grid → Option Grid
  | 0, _, _, _, _ => none
  | n + 1, r, c, color, g =>
    let recur := fun nr nc g' => cascadeSpecF n nr nc color g'
    let g0 := setCell g r c { dots := 0, owner := none }
    (cascadeVisit recur color r (c + 1) g0).bind fun g1 =>
    (cascadeVisit recur color r (c - 1) g1).bind fun g2 =>
    (cascadeVisit recur color (r + 1) c g2).bind fun g3 =>
    cascadeVisit recur color (r - 1) c g3

theorem explodeLoop_nil (recur : Int → Int → Grid → Option Grid) (r c : Int)
    (color : String) (g : Grid) : explodeLoop recur [] r c color g = some g := rfl

theorem option_bind_pure {α : Type} (o : Option α) : o.bind (fun x => some x) = o := by
  cases o <;> rfl

theorem explodeLoop_cons (recur : Int → Int → Grid → Option Grid) (d : Int × Int)
    (rest : List (Int × Int)) (r c : Int) (color : String) (g : Grid) :
    explodeLoop recur (d :: rest) r c color g
      = (cascadeVisit recur color (r + d.1) (c + d.2) g).bind
          (fun g' => explodeLoop recur rest r c color g') := by
  simp only [explodeLoop, cascadeVisit]
  by_cases hin : inRange (r + d.1) (c + d.2)
  · rw [if_pos hin, if_pos hin]
    by_cases h4 : 4 ≤ (getCell g (r + d.1) (c + d.2)).dots + 1
    · rw [if_pos h4, if_pos h4]
      cases recur (r + d.1) (c + d.2) (setCell g (r + d.1) (c + d.2)
          { dots := (getCell g (r + d.1) (c + d.2)).dots + 1, owner := some color }) with
      | none => rfl
      | some g3 => rfl
    · rw [if_neg h4, if_neg h4]
      rfl
  · rw [if_neg hin, if_neg hin]
    rfl

/-- C1: Every invocation of the cascade first resets the triggering cell to
zero dots and no owner, then visits the neighbors in exactly the order east
(c+1), west (c-1), south (r+1), north (r-1); every in-bounds neighbor is
unconditionally set to the cascading color with its dots incremented by one,
and a neighbor reaching four or more dots has its full sub-cascade run
depth-first before the next sibling neighbor is processed.  Stated as a
refinement: the source's `explode` (loop over `directions`) computes exactly
the cascade the spec describes (`cascadeSpecF`, written as the explicit
east-west-south-north sequence), at every fuel. -/
theorem C1_cascade_order_and_depth_first :
    ∀ fuel (r c : Int) (color : String) (g : Grid),
      explodeF fuel r c color g = cascadeSpecF fuel r c color g := by
  intro fuel
  induction fuel with
  | zero =>
    intro r c color g
    rfl
  | succ n ih =>
    intro r c color g
    have hfe : explodeF (n + 1) r c color g
        = explodeLoop (fun nr nc g' => explodeF n nr nc color g') directions r c color
            (setCell g r c emptyCell) := rfl
    rw [hfe]
    have hdirs : directions = [((0 : Int), (1 : Int)), (0, -1), (1, 0), (-1, 0)] := rfl
    rw [hdirs]
    simp only [explodeLoop_cons, explodeLoop_nil, option_bind_pure, ih, add_zero,
      ← sub_eq_add_neg]
    rfl

/-! ## Instrumented cascade: observing re-entry of a pending frame -/

/-- The direction loop of `explodeF`, additionally threading a flag that
records whether any frame was entered for a cell whose own frame is still
pending. -/
def explodeTraceLoop (recur : Int → Int → Grid → Option (Grid × Bool)) :
    List (Int × Int) → Int → Int → String → Grid → Bool → Option (Grid × Bool)
  | [], _, _, _, g, b => some (g, b)
  | d :: rest, r, c, color, g, b =>
    let nr := r + d.1
    let nc := c + d.2
    if inRange nr nc then
      let cell2 : Cell := { dots := (getCell g nr nc).dots + 1, owner := some color }
      let g2 := setCell g nr nc cell2
      if 4 ≤ cell2.dots then
        match recur nr nc g2 with
        | none => none
        | some gb => explodeTraceLoop recur rest r c color gb.1 (b || gb.2)
      else explodeTraceLoop recur rest r c color g2 b
    else explodeTraceLoop recur rest r c color g b

/-- `explodeF` with the pending-frame stack made explicit: identical grid
behavior (`explodeTraceF_fst` below), and a flag that is true exactly when
some cell is cascaded again while its own cascade frame is still pending. -/
def explodeTraceF :
    Nat → List (Int × Int) → Int → Int → String → Grid → Option (Grid × Bool)
  | 0, _, _, _, _, _ => none
  | n + 1, pending, r, c, color, g =>
    explodeTraceLoop (fun nr nc g' => explodeTraceF n ((r, c) :: pending) nr nc color g')
      directions r c color (setCell g r c emptyCell) (decide ((r, c) ∈ pending))

theorem explodeTraceLoop_fst {recur : Int → Int → Grid → Option Grid}
    {recur' : Int → Int → Grid → Option (Grid × Bool)}
    (hcomm : ∀ a b g, (recur' a b g).map Prod.fst = recur a b g) :
    ∀ dirs (r c : Int) (color : String) (g : Grid) (b : Bool),
      (explodeTraceLoop recur' dirs r c color g b).map Prod.fst
        = explodeLoop recur dirs r c color g := by
  intro dirs
  induction dirs with
  | nil =>
    intro r c color g b
    rfl
  | cons d rest ih =>
    intro r c color g b
    simp only [explodeTraceLoop, explodeLoop]
    by_cases hin : inRange (r + d.1) (c + d.2)
    · rw [if_pos hin, if_pos hin]
      by_cases h4 : 4 ≤ (getCell g (r + d.1) (c + d.2)).dots + 1
      · rw [if_pos h4, if_pos h4]
        have := hcomm (r + d.1) (c + d.2) (setCell g (r + d.1) (c + d.2)
          { dots := (getCell g (r + d.1) (c + d.2)).dots + 1, owner := some color })
        cases hrec : recur' (r + d.1) (c + d.2) (setCell g (r + d.1) (c + d.2)
            { dots := (getCell g (r + d.1) (c + d.2)).dots + 1, owner := some color }) with
        | none =>
          rw [hrec] at this
          rw [← this]
          rfl
        | some gb =>
          rw [hrec] at this
          rw [← this]
          exact ih r c color gb.1 (b || gb.2)
      · rw [if_neg h4, if_neg h4]
        exact ih r c color _ b
    · rw [if_neg hin, if_neg hin]
      exact ih r c color g b

theorem explodeTraceF_fst : ∀ n (pending : List (Int × Int)) (r c : Int)
    (color : String) (g : Grid),
    (explodeTraceF n pending r c color g).map Prod.fst = explodeF n r c color g := by
  intro n
  induction n with
  | zero =>
    intro pending r c color g
    rfl
  | succ m ih =>
    intro pending r c color g
    exact explodeTraceLoop_fst (fun a b g' => ih ((r, c) :: pending) a b color g')
      directions r c color (setCell g r c emptyCell) (decide ((r, c) ∈ pending))

/-! ## Small structural lemmas about the move path -/

/-- A move outcome on which `on_move` applied the click. -/
def isSuccessOutcome : MoveOutcome → Bool
  | .advanced => true
  | .gameOver _ => true
  | _ => false

/-- A rejection `on_move` surfaces to the caller (crashes excluded). -/
def isRejection : MoveOutcome → Bool
  | .roomNotFound => true
  | .notStarted => true
  | .outOfBounds => true
  | .notYourTurn => true
  | .firstMoveInvalid => true
  | .notOwnCell => true
  | _ => false

theorem clampedRoom_of_lt {game : GameRoom} (h : game.turn_index < game.players.length) :
    clampedRoom game = game := by
  unfold clampedRoom
  rw [if_neg (by omega)]

theorem moveFinish_fields (game : GameRoom) :
    (moveFinish game).1.grid = game.grid ∧ (moveFinish game).1.players = game.players ∧
    (moveFinish game).1.first_moves_done = game.first_moves_done ∧
    (moveFinish game).1.game_started = game.game_started ∧
    (moveFinish game).1.max_players = game.max_players := by
  unfold moveFinish
  cases checkWinner game <;> exact ⟨rfl, rfl, rfl, rfl, rfl⟩

theorem moveFinish_isSuccess (game : GameRoom) :
    isSuccessOutcome (moveFinish game).2 = true := by
  unfold moveFinish
  cases checkWinner game <;> rfl

theorem moveFinish_not_rejection (game : GameRoom) :
    isRejection (moveFinish game).2 = false := by
  unfold moveFinish
  cases checkWinner game <;> rfl

theorem handleClick_fields {game : GameRoom} {r c : Int} {color : String}
    {game₂ : GameRoom} {b : Bool} (h : handleClick game r c color = some (game₂, b)) :
    game₂.players = game.players ∧ game₂.turn_index = game.turn_index ∧
    game₂.game_started = game.game_started ∧ game₂.max_players = game.max_players := by
  rcases hfd : dictGet game.first_moves_done color with _ | fd
  · rw [handleClick_none hfd] at h
    simp at h
  · rcases fd with _ | _
    · by_cases hown : (getCell game.grid r c).owner = none
      · rw [handleClick_first_success hfd hown] at h
        injection h with h'
        injection h' with h1 _
        rw [← h1]
        exact ⟨rfl, rfl, rfl, rfl⟩
      · rw [handleClick_first_reject hfd hown] at h
        injection h with h'
        injection h' with h1 _
        rw [← h1]
        exact ⟨rfl, rfl, rfl, rfl⟩
    · by_cases hown : (getCell game.grid r c).owner = some color
      · rw [handleClick_inc_success hfd hown] at h
        injection h with h'
        injection h' with h1 _
        rw [← h1]
        exact ⟨rfl, rfl, rfl, rfl⟩
      · rw [handleClick_inc_reject hfd hown] at h
        injection h with h'
        injection h' with h1 _
        rw [← h1]
        exact ⟨rfl, rfl, rfl, rfl⟩

theorem onMove_checked {reg : Registry} {rid : String} (sid : String) {r c : Int}
    {game : GameRoom} (hget : dictGet reg rid = some game)
    (hst : game.game_started = true) (hin : inRange r c) :
    onMove reg rid sid r c
      = (dictSet reg rid (moveTurn game sid r c).1, (moveTurn game sid r c).2) := by
  rw [onMove_room sid r c hget, if_neg (by simp [hst]), if_neg (not_not_intro hin)]

theorem moveTurn_current {game : GameRoom} {sid : String} (r c : Int) {curr : Player}
    (hlt : game.turn_index < game.players.length)
    (hcurr : game.players.get? game.turn_index = some curr) (hsid : sid = curr.id) :
    moveTurn game sid r c = moveClick game curr.color r c := by
  have hcl : clampedRoom game = game := clampedRoom_of_lt hlt
  have h2 : (clampedRoom game).players.get? (clampedRoom game).turn_index = some curr := by
    rw [hcl]
    exact hcurr
  rw [moveTurn_some sid r c h2, if_pos hsid, hcl]

theorem clampedRoom_grid (game : GameRoom) : (clampedRoom game).grid = game.grid := by
  unfold clampedRoom
  split <;> rfl

theorem clampedRoom_players (game : GameRoom) :
    (clampedRoom game).players = game.players := by
  unfold clampedRoom
  split <;> rfl

theorem moveClick_crashed {game : GameRoom} {color : String} (r c : Int)
    (hfd : dictGet game.first_moves_done color = none) :
    moveClick game color r c = (game, .crashed) := by
  unfold moveClick
  rw [handleClick_none hfd]

/-- Every move `on_move` reports as a success (`advanced` or `game_over`)
went through `moveFinish` on a room whose board is well-formed and carries
a dotted cell of the mover, the mover being seated in that room. -/
theorem onMove_success_shape {reg : Registry} {rid sid : String} {r c : Int}
    {reg' : Registry} {out : MoveOutcome} {game : GameRoom}
    (hget : dictGet reg rid = some game) (hwf : gridWF game.grid)
    (hmv : onMove reg rid sid r c = (reg', out)) (hsucc : isSuccessOutcome out = true) :
    ∃ (curr : Player) (room₃ : GameRoom),
      curr ∈ room₃.players ∧ gridWF room₃.grid ∧
      hasColorCell room₃.grid curr.color ∧
      reg' = dictSet reg rid (moveFinish room₃).1 ∧ out = (moveFinish room₃).2 := by
  by_cases hst : game.game_started = false
  · rw [onMove_room sid r c hget, if_pos hst] at hmv
    injection hmv with h1 h2
    rw [← h2] at hsucc
    simp [isSuccessOutcome] at hsucc
  have hst' : game.game_started = true := by
    revert hst
    cases game.game_started <;> simp
  by_cases hin : inRange r c
  case neg =>
    rw [onMove_room sid r c hget, if_neg (by simp [hst']), if_pos hin] at hmv
    injection hmv with h1 h2
    rw [← h2] at hsucc
    simp [isSuccessOutcome] at hsucc
  rw [onMove_checked sid hget hst' hin] at hmv
  rcases hcurr : (clampedRoom game).players.get? (clampedRoom game).turn_index
    with _ | curr
  · rw [moveTurn_none sid r c hcurr] at hmv
    injection hmv with h1 h2
    rw [← h2] at hsucc
    simp [isSuccessOutcome] at hsucc
  rw [moveTurn_some sid r c hcurr] at hmv
  by_cases hsid : sid = curr.id
  case neg =>
    rw [if_neg hsid] at hmv
    injection hmv with h1 h2
    rw [← h2] at hsucc
    simp [isSuccessOutcome] at hsucc
  rw [if_pos hsid] at hmv
  have hw1 : gridWF (clampedRoom game).grid := by
    rw [clampedRoom_grid]
    exact hwf
  have hmem : curr ∈ (clampedRoom game).players := List.get?_mem hcurr
  obtain ⟨hr0, hr8, hc0, hc8⟩ := hin
  have hrn : r.toNat < 8 := by omega
  have hcn : c.toNat < 8 := by omega
  rcases hfd : dictGet (clampedRoom game).first_moves_done curr.color with _ | fd
  · rw [moveClick_crashed r c hfd] at hmv
    injection hmv with h1 h2
    rw [← h2] at hsucc
    simp [isSuccessOutcome] at hsucc
  rcases fd with _ | _
  · by_cases hown : (getCell (clampedRoom game).grid r c).owner = none
    · rw [moveClick_first_success hw1 ⟨hr0, hr8, hc0, hc8⟩ hfd hown] at hmv
      injection hmv with h1 h2
      refine ⟨curr, firstMoveRoom (clampedRoom game) r c curr.color, hmem, ?_, ?_,
        h1.symm, h2.symm⟩
      · exact gridWF_setCellN hw1 _ _ _
      · have hcell : getCellN (firstMoveRoom (clampedRoom game) r c curr.color).grid
            r.toNat c.toNat = { dots := 3, owner := some curr.color } := by
          simp only [firstMoveRoom, setCell]
          exact getCellN_setCellN_self hw1 hrn hcn _
        exact ⟨r.toNat, c.toNat, hrn, hcn, by rw [hcell],
          by rw [hcell]; exact Nat.le_add_left 1 2⟩
    · rw [moveClick_first_reject hfd hown] at hmv
      injection hmv with h1 h2
      rw [← h2] at hsucc
      simp [isSuccessOutcome] at hsucc
  · by_cases hown : (getCell (clampedRoom game).grid r c).owner = some curr.color
    · by_cases hge : 4 ≤ (getCell (clampedRoom game).grid r c).dots + 1
      · obtain ⟨g', hg', _, hw', heq⟩ :=
          moveClick_inc_explode hw1 ⟨hr0, hr8, hc0, hc8⟩ hfd hown hge
        rw [heq] at hmv
        injection hmv with h1 h2
        have hw2 : gridWF (incrementRoom (clampedRoom game) r c).grid := by
          simp only [incrementRoom, setCell]
          exact gridWF_setCellN hw1 _ _ _
        obtain ⟨hgood, _⟩ := explodeF_good _ r c curr.color _ g' hg' hw2
          ⟨hr0, hr8, hc0, hc8⟩
        exact ⟨curr, { incrementRoom (clampedRoom game) r c with grid := g' },
          hmem, hw', hgood, h1.symm, h2.symm⟩
      · rw [moveClick_inc_small hw1 ⟨hr0, hr8, hc0, hc8⟩ hfd hown (by omega)] at hmv
        injection hmv with h1 h2
        refine ⟨curr, incrementRoom (clampedRoom game) r c, hmem, ?_, ?_,
          h1.symm, h2.symm⟩
        · simp only [incrementRoom, setCell]
          exact gridWF_setCellN hw1 _ _ _
        · have hcell : getCellN (incrementRoom (clampedRoom game) r c).grid r.toNat c.toNat
              = { dots := (getCell (clampedRoom game).grid r c).dots + 1,
                  owner := (getCell (clampedRoom game).grid r c).owner } := by
            simp only [incrementRoom, setCell]
            exact getCellN_setCellN_self hw1 hrn hcn _
          exact ⟨r.toNat, c.toNat, hrn, hcn, by rw [hcell]; exact hown,
            by rw [hcell]; exact Nat.le_add_left 1 _⟩
    · rw [moveClick_inc_reject hfd hown] at hmv
      injection hmv with h1 h2
      rw [← h2] at hsucc
      simp [isSuccessOutcome] at hsucc

/-! ## Unfolding `check_winner` -/

theorem checkWinner_eq (g : GameRoom) :
    checkWinner g =
      if g.game_started = false then none
      else if g.first_moves_done.all (fun kv => kv.2) ∧ 0 < (scanBoard g.grid).2 ∧
          (scanBoard g.grid).1.length = 1 then
        match (scanBoard g.grid).1.head? with
        | none => none
        | some wc => (g.players.find? (fun p => p.color == wc)).map (·.name)
      else none := rfl

/-- A declared winner certifies the detector's four conditions. -/
theorem checkWinner_conditions {g : GameRoom} {w : String} (h : checkWinner g = some w) :
    g.game_started = true ∧ g.first_moves_done.all (fun kv => kv.2) = true ∧
    0 < (scanBoard g.grid).2 ∧ (scanBoard g.grid).1.length = 1 := by
  rw [checkWinner_eq] at h
  by_cases hst : g.game_started = false
  · rw [if_pos hst] at h
    simp at h
  rw [if_neg hst] at h
  have hst' : g.game_started = true := by
    revert hst
    cases g.game_started <;> simp
  by_cases hcond : g.first_moves_done.all (fun kv => kv.2) ∧ 0 < (scanBoard g.grid).2 ∧
      (scanBoard g.grid).1.length = 1
  · exact ⟨hst', hcond.1, hcond.2.1, hcond.2.2⟩
  · rw [if_neg hcond] at h
    simp at h

/-- When the four conditions hold and a seated player matches the single
scanned owner, the detector names that player. -/
theorem checkWinner_of_conditions {g : GameRoom} {wc : String} {p : Player}
    (hst : g.game_started = true)
    (hall : g.first_moves_done.all (fun kv => kv.2) = true)
    (htot : 0 < (scanBoard g.grid).2)
    (hones : (scanBoard g.grid).1 = [wc])
    (hfind : g.players.find? (fun q => q.color == wc) = some p) :
    checkWinner g = some p.name := by
  rw [checkWinner_eq, if_neg (by simp [hst]),
    if_pos ⟨hall, htot, by rw [hones]; rfl⟩, hones]
  show (g.players.find? (fun q => q.color == wc)).map (·.name) = some p.name
  rw [hfind]
  rfl

/-- C3 (amended): after a move `on_move` reports as a success, a winner is
declared iff, in the room as written back, the game is started, every value
recorded in `first_moves_done` is true, the scanned dot total of owned cells
is positive, and exactly one distinct owner color occurs on the board.  The
claim's seated-color-keyed reading is refuted separately: the tracker can
lack an entry for a seated color entirely, so "every seated color's entry is
true" is neither required nor implied. -/
theorem C3_winner_iff {reg reg' : Registry} {rid sid : String} {r c : Int}
    {out : MoveOutcome} {game room' : GameRoom}
    (hget : dictGet reg rid = some game) (hwf : gridWF game.grid)
    (hmv : onMove reg rid sid r c = (reg', out))
    (hsucc : isSuccessOutcome out = true)
    (hroom' : dictGet reg' rid = some room') :
    (∃ w, out = MoveOutcome.gameOver w) ↔
      (room'.game_started = true ∧
       room'.first_moves_done.all (fun kv => kv.2) = true ∧
       0 < (scanBoard room'.grid).2 ∧
       (scanBoard room'.grid).1.length = 1) := by
  obtain ⟨curr, room₃, hmem, hw3, hgood, hreg', hout⟩ :=
    onMove_success_shape hget hwf hmv hsucc
  have hroomeq : room' = (moveFinish room₃).1 := by
    rw [hreg', dictGet_dictSet_self] at hroom'
    exact (Option.some_inj.mp hroom').symm
  obtain ⟨hg3, hp3, hf3, hs3, _⟩ := moveFinish_fields room₃
  rcases hcw : checkWinner room₃ with _ | w
  · rw [moveFinish_advanced hcw] at hout
    have hout' : out = MoveOutcome.advanced := hout
    constructor
    · rintro ⟨w, hw⟩
      rw [hout'] at hw
      simp at hw
    · rintro ⟨h1, h2, h3, h4⟩
      exfalso
      rw [hroomeq, hf3] at h2
      rw [hroomeq, hg3] at h3 h4
      rw [hroomeq, hs3] at h1
      obtain ⟨i, j, hi, hj, hoc, hdc⟩ := hgood
      obtain ⟨row, hrow, hcm⟩ := getCellN_mem hw3 hi hj
      have hmemo : curr.color ∈ (scanBoard room₃.grid).1 :=
        scanBoard_owner_of_mem hrow hcm hoc
      obtain ⟨x, hx⟩ := List.length_eq_one.mp h4
      rw [hx] at hmemo
      have hcx : curr.color = x := by simpa using hmemo
      rcases hfp : room₃.players.find? (fun q => q.color == x) with _ | p
      · have := List.find?_eq_none.mp hfp curr hmem
        simp [hcx] at this
      · have : checkWinner room₃ = some p.name :=
          checkWinner_of_conditions h1 h2 h3 hx hfp
        rw [hcw] at this
        simp at this
  · rw [moveFinish_gameOver hcw] at hout
    have hout' : out = MoveOutcome.gameOver w := hout
    constructor
    · intro _
      obtain ⟨h1, h2, h3, h4⟩ := checkWinner_conditions hcw
      rw [hroomeq]
      exact ⟨by rw [hs3]; exact h1, by rw [hf3]; exact h2,
        by rw [hg3]; exact h3, by rw [hg3]; exact h4⟩
    · intro _
      exact ⟨w, hout'⟩

/-! ## Concrete replays used to separate the detector from the spec's reading -/

/-- Eleven events: A, B, G1, D2 fill a 4-seat room; A moves; D2 and B leave
(D2's departure deletes yellow's tracker entry and un-starts the game); G2
joins and is assigned green again (G1 still seated), resetting green's
tracker; X joins (yellow), restarting the game; G1 moves; G2 leaves,
deleting the shared green tracker entry while G1 remains seated. -/
def c7Events : List Event :=
  [.join "r" "A" 4 "sA", .join "r" "B" 4 "sB", .join "r" "G1" 4 "sG1",
   .join "r" "D2" 4 "sD2", .move "r" "sA" 0 0, .disconnect "sD2",
   .disconnect "sB", .join "r" "G2" 4 "sG2", .join "r" "X" 4 "sX",
   .move "r" "sG1" 0 1, .disconnect "sG2"]

/-- The eleven events above, then Y joins (assigned yellow, already held by
X) and X makes yellow's first move. -/
def c3Events : List Event :=
  c7Events ++ [.join "r" "Y" 4 "sY", .move "r" "sX" 0 2]

def c3Reg : Registry := runEvents c3Events

def c3Game : GameRoom := (dictGet c3Reg "r").getD (initRoom "r" 4)

def c3Room' : GameRoom :=
  (dictGet (onMove c3Reg "r" "sY" 0 2).1 "r").getD (initRoom "r" 4)

set_option maxRecDepth 40000 in
/-- C3 counterexample: a winner is declared by a successful move while the
seated color green has no tracker entry at all (its shared entry was deleted
when G2 left), so the seated-color-keyed condition of the claim fails while
the code's `all(first_moves_done.values())` passes. -/
theorem C3_seated_color_counterexample :
    (onMove c3Reg "r" "sY" 0 2).2 = MoveOutcome.gameOver "X" ∧
    (dictGet c3Reg "r").map (fun g =>
        (g.players.map (·.color), g.first_moves_done, g.game_started))
      = some (["red", "green", "yellow", "yellow"],
              [("red", true), ("yellow", true)], true) ∧
    (dictGet (onMove c3Reg "r" "sY" 0 2).1 "r").map (fun g =>
        (g.players.map (·.color), g.first_moves_done))
      = some (["red", "green", "yellow", "yellow"],
              [("red", true), ("yellow", true)]) := by
  refine ⟨by decide, by decide, by decide⟩

instance (g : Grid) : Decidable (gridWF g) := by
  unfold gridWF
  infer_instance

set_option maxRecDepth 40000 in
/-- Witness instantiating the amended winner-iff on the concrete replay. -/
theorem C3_winner_iff_witness :
    (∃ w, (onMove c3Reg "r" "sY" 0 2).2 = MoveOutcome.gameOver w) ↔
      (c3Room'.game_started = true ∧
       c3Room'.first_moves_done.all (fun kv => kv.2) = true ∧
       0 < (scanBoard c3Room'.grid).2 ∧
       (scanBoard c3Room'.grid).1.length = 1) :=
  C3_winner_iff (show dictGet c3Reg "r" = some c3Game by decide)
    (show gridWF c3Game.grid by decide)
    (show onMove c3Reg "r" "sY" 0 2
        = ((onMove c3Reg "r" "sY" 0 2).1, (onMove c3Reg "r" "sY" 0 2).2) from rfl)
    (show isSuccessOutcome (onMove c3Reg "r" "sY" 0 2).2 = true by decide)
    (show dictGet (onMove c3Reg "r" "sY" 0 2).1 "r" = some c3Room' by decide)

/-! ## Characterizing `add_player` -/

theorem addPlayer_rejoined_eq {g : GameRoom} {sid : String} (name : String) {p : Player}
    (hfind : g.players.find? (fun q => q.id == sid) = some p) :
    addPlayer g sid name = (g, .rejoined p.color) := by
  unfold addPlayer
  rw [hfind]

theorem addPlayer_full_eq {g : GameRoom} {sid : String} (name : String)
    (hfind : g.players.find? (fun q => q.id == sid) = none)
    (hlen : ¬ (g.players.length : Int) < g.max_players) :
    addPlayer g sid name = (g, .full) := by
  unfold addPlayer
  rw [hfind, if_neg hlen]

theorem addPlayer_crashed_eq {g : GameRoom} {sid : String} (name : String)
    (hfind : g.players.find? (fun q => q.id == sid) = none)
    (hlen : (g.players.length : Int) < g.max_players)
    (hcol : colors.get? g.players.length = none) :
    addPlayer g sid name = (g, .crashed) := by
  unfold addPlayer
  rw [hfind, if_pos hlen, hcol]

theorem addPlayer_seated_eq {g : GameRoom} {sid : String} (name : String) {col : String}
    (hfind : g.players.find? (fun q => q.id == sid) = none)
    (hlen : (g.players.length : Int) < g.max_players)
    (hcol : colors.get? g.players.length = some col) :
    addPlayer g sid name =
      ({ g with
          players := g.players ++ [({ id := sid, name := name, color := col } : Player)]
          first_moves_done := dictSet g.first_moves_done col false
          game_started :=
            if ((g.players ++ [({ id := sid, name := name, color := col } : Player)]).length : Int)
                = g.max_players then true
            else g.game_started },
        .seated col) := by
  unfold addPlayer
  rw [hfind, if_pos hlen, hcol]

/-- C7 (amended): a join that seats a new player assigns
`colors[len(players)]`, the palette color indexed by the roster size just
before the join, and appends the player; nothing prevents that color from
already being held by a seated player (see the counterexample). -/
theorem C7_seat_color {room room' : GameRoom} {sid name color : String}
    (h : addPlayer room sid name = (room', AddResult.seated color)) :
    colors.get? room.players.length = some color ∧
    room'.players = room.players ++ [{ id := sid, name := name, color := color }] := by
  rcases hfind : room.players.find? (fun q => q.id == sid) with _ | p
  · by_cases hlen : (room.players.length : Int) < room.max_players
    · rcases hcol : colors.get? room.players.length with _ | col
      · rw [addPlayer_crashed_eq name hfind hlen hcol] at h
        injection h with h1 h2
        simp at h2
      · rw [addPlayer_seated_eq name hfind hlen hcol] at h
        injection h with h1 h2
        injection h2 with h3
        subst h3
        exact ⟨by simp [hcol], by rw [← h1]⟩
    · rw [addPlayer_full_eq name hfind hlen] at h
      injection h with h1 h2
      simp at h2
  · rw [addPlayer_rejoined_eq name hfind] at h
    injection h with h1 h2
    simp at h2

/-- Witness: the first seat of a fresh two-seat room receives `colors[0]`. -/
theorem C7_seat_color_witness :
    colors.get? (initRoom "w" 2).players.length = some "red" ∧
    (addPlayer (initRoom "w" 2) "s1" "P1").1.players
      = (initRoom "w" 2).players ++ [{ id := "s1", name := "P1", color := "red" }] :=
  C7_seat_color (show addPlayer (initRoom "w" 2) "s1" "P1"
    = ((addPlayer (initRoom "w" 2) "s1" "P1").1, AddResult.seated "red") by decide)

/-- C7 counterexample: after the eleven-event replay the seated roster is
A(red), G1(green), X(yellow); the genuinely new player Y is nevertheless
seated with yellow, a color already held by the seated X. -/
theorem C7_duplicate_color_counterexample :
    (onJoin (runEvents c7Events) "r" "Y" 4 "sY").2 = JoinOutcome.joined "yellow" ∧
    (dictGet (runEvents c7Events) "r").map (fun g =>
        g.players.map (fun p => (p.id, p.color)))
      = some [("sA", "red"), ("sG1", "green"), ("sX", "yellow")] := by
  refine ⟨by decide, by decide⟩

/-! ## Termination of the cascade, and re-entry of a pending frame -/

/-- C5 (amended): every cascade fired by `on_move` from a well-formed board
terminates: the fuel `phi g + 1` the embedding hands `explodeF` is enough,
and the weighted dot measure strictly drops, so the recursion is finite.
The claim's stated reason is refuted separately: a cell whose frame is still
pending can be re-entered (see the counterexample), so the 64-frame
no-re-entry argument does not hold of this code. -/
theorem C5_cascade_terminates (g : Grid) (r c : Int) (color : String)
    (hw : gridWF g) (hin : inRange r c) (hdots : 4 ≤ (getCell g r c).dots) :
    ∃ g', explodeF (phi g + 1) r c color g = some g' ∧ phi g' < phi g := by
  obtain ⟨g', h1, h2, _⟩ :=
    explodeF_total (phi g + 1) r c color g hw hin hdots (Nat.lt_succ_self _)
  exact ⟨g', h1, h2⟩

def c5WitnessGrid : Grid := setCellN initGrid 0 0 { dots := 4, owner := some "red" }

/-- Witness: the cascade from a four-dot corner cell terminates within the
given fuel. -/
theorem C5_cascade_terminates_witness :
    ∃ g', explodeF (phi c5WitnessGrid + 1) 0 0 "red" c5WitnessGrid = some g'
      ∧ phi g' < phi c5WitnessGrid :=
  C5_cascade_terminates c5WitnessGrid 0 0 "red" (by decide) (by decide) (by decide)

/-- A reachable two-player game of 35 moves; the 36th move (B at (5,5))
fires a cascade that re-enters a pending frame. -/
def c5Events : List Event :=
  [.join "r" "A" 2 "sA", .join "r" "B" 2 "sB",
   .move "r" "sA" 5 7, .move "r" "sB" 6 4, .move "r" "sA" 5 7, .move "r" "sB" 6 4,
   .move "r" "sA" 5 6, .move "r" "sB" 5 4, .move "r" "sA" 5 6, .move "r" "sB" 5 4,
   .move "r" "sA" 5 6, .move "r" "sB" 6 5, .move "r" "sA" 6 7, .move "r" "sB" 5 4,
   .move "r" "sA" 4 6, .move "r" "sB" 6 3, .move "r" "sA" 5 7, .move "r" "sB" 4 4,
   .move "r" "sA" 4 6, .move "r" "sB" 6 5, .move "r" "sA" 4 6, .move "r" "sB" 5 3,
   .move "r" "sA" 5 7, .move "r" "sB" 4 4, .move "r" "sA" 4 5, .move "r" "sB" 5 3,
   .move "r" "sA" 4 5, .move "r" "sB" 6 4, .move "r" "sA" 3 6, .move "r" "sB" 6 3,
   .move "r" "sA" 5 6, .move "r" "sB" 5 5, .move "r" "sA" 4 7, .move "r" "sB" 6 4,
   .move "r" "sA" 5 7]

/-- The board the 36th move's cascade runs on: room "r" after the replay,
with the clicked cell (5,5) incremented. -/
def c5TriggerGrid : Grid :=
  match dictGet (runEvents c5Events) "r" with
  | some game => (incrementRoom game 5 5).grid
  | none => initGrid

set_option maxRecDepth 40000 in
/-- C5 counterexample: the 36th move succeeds (so its cascade ran inside the
real handler), its trigger cell holds four dots, and the instrumented
cascade on the very grid the handler explodes reports that some frame was
entered for a cell whose own frame was still pending — re-entry of a
pending cell does happen from a reachable state. -/
theorem C5_reentry_counterexample :
    (onMove (runEvents c5Events) "r" "sB" 5 5).2 = MoveOutcome.advanced ∧
    4 ≤ (getCellN c5TriggerGrid 5 5).dots ∧
    (explodeTraceF (phi c5TriggerGrid + 1) [] 5 5 "blue" c5TriggerGrid).map Prod.snd
      = some true := by
  refine ⟨by decide, by decide, by decide⟩

/-! ## The two move modes of `handle_click`, as surfaced by `on_move` -/

/-- C2: a move by the current player at in-bounds coordinates, with the
mover's tracker entry present.  When the entry is false (first move), the
move succeeds iff the cell is unowned; success writes exactly three dots and
the mover's color with no cascade, and an owned cell is rejected as
`firstMoveInvalid` with the registry unchanged.  When the entry is true, the
move succeeds iff the mover owns the cell; success increments the dots,
cascading iff the result is at least four, and a foreign cell is rejected as
`notOwnCell` with the registry unchanged. -/
theorem C2_move_semantics {reg : Registry} {rid sid : String} {r c : Int}
    {game : GameRoom} {curr : Player} {fd : Bool}
    (hget : dictGet reg rid = some game)
    (hwf : gridWF game.grid)
    (hst : game.game_started = true)
    (hin : inRange r c)
    (hlt : game.turn_index < game.players.length)
    (hcurr : game.players.get? game.turn_index = some curr)
    (hsid : sid = curr.id)
    (hfd : dictGet game.first_moves_done curr.color = some fd) :
    (fd = false →
      (isSuccessOutcome (onMove reg rid sid r c).2 = true
          ↔ (getCell game.grid r c).owner = none) ∧
      ((getCell game.grid r c).owner = none →
        ∃ room', dictGet (onMove reg rid sid r c).1 rid = some room' ∧
          room'.grid = setCell game.grid r c { dots := 3, owner := some curr.color }) ∧
      ((getCell game.grid r c).owner ≠ none →
        onMove reg rid sid r c = (reg, MoveOutcome.firstMoveInvalid))) ∧
    (fd = true →
      (isSuccessOutcome (onMove reg rid sid r c).2 = true
          ↔ (getCell game.grid r c).owner = some curr.color) ∧
      ((getCell game.grid r c).owner = some curr.color →
        ∃ room', dictGet (onMove reg rid sid r c).1 rid = some room' ∧
          ((¬ 4 ≤ (getCell game.grid r c).dots + 1 ∧
              room'.grid = setCell game.grid r c
                { dots := (getCell game.grid r c).dots + 1,
                  owner := (getCell game.grid r c).owner }) ∨
            (4 ≤ (getCell game.grid r c).dots + 1 ∧
              ∃ gex, explodeF (phi (incrementRoom game r c).grid + 1) r c curr.color
                  (incrementRoom game r c).grid = some gex ∧ room'.grid = gex))) ∧
      ((getCell game.grid r c).owner ≠ some curr.color →
        onMove reg rid sid r c = (reg, MoveOutcome.notOwnCell))) := by
  have heq : onMove reg rid sid r c
      = (dictSet reg rid (moveClick game curr.color r c).1,
         (moveClick game curr.color r c).2) := by
    rw [onMove_checked sid hget hst hin, moveTurn_current r c hlt hcurr hsid]
  constructor
  · intro hfdf
    subst hfdf
    by_cases hown : (getCell game.grid r c).owner = none
    · rw [moveClick_first_success hwf hin hfd hown] at heq
      refine ⟨?_, ?_, fun hc => absurd hown hc⟩
      · rw [heq]
        exact ⟨fun _ => hown, fun _ => moveFinish_isSuccess _⟩
      · intro _
        refine ⟨(moveFinish (firstMoveRoom game r c curr.color)).1, ?_, ?_⟩
        · rw [heq]
          exact dictGet_dictSet_self reg rid _
        · rw [(moveFinish_fields _).1]
          rfl
    · rw [moveClick_first_reject hfd hown, dictSet_eq_self_of_get hget] at heq
      refine ⟨?_, fun hn => absurd hn hown, fun _ => heq⟩
      rw [heq]
      constructor
      · intro hs
        simp [isSuccessOutcome] at hs
      · intro ho
        exact absurd ho hown
  · intro hfdt
    subst hfdt
    by_cases hown : (getCell game.grid r c).owner = some curr.color
    · by_cases hge : 4 ≤ (getCell game.grid r c).dots + 1
      · obtain ⟨gex, hgex, _, _, hmc⟩ := moveClick_inc_explode hwf hin hfd hown hge
        rw [hmc] at heq
        refine ⟨?_, ?_, fun hc => absurd hown hc⟩
        · rw [heq]
          exact ⟨fun _ => hown, fun _ => moveFinish_isSuccess _⟩
        · intro _
          refine ⟨(moveFinish { incrementRoom game r c with grid := gex }).1, ?_,
            Or.inr ⟨hge, gex, hgex, ?_⟩⟩
          · rw [heq]
            exact dictGet_dictSet_self reg rid _
          · rw [(moveFinish_fields _).1]
      · rw [moveClick_inc_small hwf hin hfd hown (by omega)] at heq
        refine ⟨?_, ?_, fun hc => absurd hown hc⟩
        · rw [heq]
          exact ⟨fun _ => hown, fun _ => moveFinish_isSuccess _⟩
        · intro _
          refine ⟨(moveFinish (incrementRoom game r c)).1, ?_, Or.inl ⟨hge, ?_⟩⟩
          · rw [heq]
            exact dictGet_dictSet_self reg rid _
          · rw [(moveFinish_fields _).1]
            rfl
    · rw [moveClick_inc_reject hfd hown, dictSet_eq_self_of_get hget] at heq
      refine ⟨?_, fun ho => absurd ho hown, fun _ => heq⟩
      rw [heq]
      constructor
      · intro hs
        simp [isSuccessOutcome] at hs
      · intro ho
        exact absurd ho hown

/-- A started two-seat room used to instantiate the move-mode theorem. -/
def w2Room : GameRoom :=
  { room_id := "w"
    max_players := 2
    grid := initGrid
    players := [{ id := "s1", name := "P1", color := "red" },
                { id := "s2", name := "P2", color := "blue" }]
    turn_index := 0
    game_started := true
    first_moves_done := [("red", false), ("blue", false)] }

def w2Reg : Registry := [("w", w2Room)]

/-- Witness: the move-mode theorem applied to red's pending first move at
the empty cell (0,0). -/
theorem C2_move_semantics_witness :
    (false = false →
      (isSuccessOutcome (onMove w2Reg "w" "s1" 0 0).2 = true
          ↔ (getCell w2Room.grid 0 0).owner = none) ∧
      ((getCell w2Room.grid 0 0).owner = none →
        ∃ room', dictGet (onMove w2Reg "w" "s1" 0 0).1 "w" = some room' ∧
          room'.grid = setCell w2Room.grid 0 0 { dots := 3, owner := some "red" }) ∧
      ((getCell w2Room.grid 0 0).owner ≠ none →
        onMove w2Reg "w" "s1" 0 0 = (w2Reg, MoveOutcome.firstMoveInvalid))) ∧
    (false = true →
      (isSuccessOutcome (onMove w2Reg "w" "s1" 0 0).2 = true
          ↔ (getCell w2Room.grid 0 0).owner = some "red") ∧
      ((getCell w2Room.grid 0 0).owner = some "red" →
        ∃ room', dictGet (onMove w2Reg "w" "s1" 0 0).1 "w" = some room' ∧
          ((¬ 4 ≤ (getCell w2Room.grid 0 0).dots + 1 ∧
              room'.grid = setCell w2Room.grid 0 0
                { dots := (getCell w2Room.grid 0 0).dots + 1,
                  owner := (getCell w2Room.grid 0 0).owner }) ∨
            (4 ≤ (getCell w2Room.grid 0 0).dots + 1 ∧
              ∃ gex, explodeF (phi (incrementRoom w2Room 0 0).grid + 1) 0 0 "red"
                  (incrementRoom w2Room 0 0).grid = some gex ∧ room'.grid = gex))) ∧
      ((getCell w2Room.grid 0 0).owner ≠ some "red" →
        onMove w2Reg "w" "s1" 0 0 = (w2Reg, MoveOutcome.notOwnCell))) :=
  C2_move_semantics
    (show dictGet w2Reg "w" = some w2Room by decide)
    (show gridWF w2Room.grid by decide)
    (show w2Room.game_started = true from rfl)
    (show inRange 0 0 by decide)
    (show w2Room.turn_index < w2Room.players.length by decide)
    (show w2Room.players.get? w2Room.turn_index
        = some { id := "s1", name := "P1", color := "red" } from rfl)
    (show "s1" = ({ id := "s1", name := "P1", color := "red" } : Player).id from rfl)
    (show dictGet w2Room.first_moves_done
        ({ id := "s1", name := "P1", color := "red" } : Player).color
      = some false from rfl)

/-! ## The at-rest cell invariant over every reachable registry -/

/-- C4: in every registry state reachable by joins, disconnects and moves
(successful or not), every cell of every room's board satisfies the at-rest
invariant: zero dots exactly when unowned, and at most three dots. -/
theorem C4_cell_invariant {reg : Registry} (hre : Reachable reg) {rid : String}
    {room : GameRoom} (hget : dictGet reg rid = some room) (i j : Nat)
    (hi : i < 8) (hj : j < 8) :
    ((getCellN room.grid i j).dots = 0 ↔ (getCellN room.grid i j).owner = none) ∧
    (getCellN room.grid i j).dots ≤ 3 := by
  have hinv := regInv_of_reachable hre _ (mem_of_dictGet_eq_some hget)
  have hc := hinv.2.1 i j hi hj
  exact ⟨hc.2, hc.1⟩

/-- A single join creating room "q". -/
def qEvents : List Event := [.join "q" "P1" 2 "s1"]

def qRoom : GameRoom := (dictGet (runEvents qEvents) "q").getD (initRoom "q" 2)

/-- Witness: the invariant at cell (0,0) of the room one join creates. -/
theorem C4_cell_invariant_witness :
    ((getCellN qRoom.grid 0 0).dots = 0 ↔ (getCellN qRoom.grid 0 0).owner = none) ∧
    (getCellN qRoom.grid 0 0).dots ≤ 3 :=
  C4_cell_invariant ⟨qEvents, rfl⟩
    (show dictGet (runEvents qEvents) "q" = some qRoom by decide)
    0 0 (by decide) (by decide)

/-! ## Rejected moves mutate nothing -/

/-- C6: whenever `on_move` on a reachable registry returns one of the six
rejections (room not found, not started, out of bounds, not your turn,
first-move invalid, not own cell), the registry it returns is exactly the
one it was given: no board, roster, turn or tracker mutation survives. -/
theorem C6_rejection_frame {reg : Registry} (hre : Reachable reg)
    {rid sid : String} {r c : Int} {reg' : Registry} {out : MoveOutcome}
    (hmv : onMove reg rid sid r c = (reg', out)) (hrej : isRejection out = true) :
    reg' = reg := by
  rcases hget : dictGet reg rid with _ | game
  · rw [onMove_noRoom sid r c hget] at hmv
    injection hmv with h1 _
    exact h1.symm
  by_cases hst : game.game_started = false
  · rw [onMove_room sid r c hget, if_pos hst] at hmv
    injection hmv with h1 _
    exact h1.symm
  have hst' : game.game_started = true := by
    revert hst
    cases game.game_started <;> simp
  by_cases hin : inRange r c
  case neg =>
    rw [onMove_room sid r c hget, if_neg (by simp [hst']), if_pos hin] at hmv
    injection hmv with h1 _
    exact h1.symm
  rw [onMove_checked sid hget hst' hin] at hmv
  have hinv : RoomInv game := regInv_of_reachable hre _ (mem_of_dictGet_eq_some hget)
  have hne : game.players ≠ [] := hinv.2.2.2.2.1 hst'
  have hlt : game.turn_index < game.players.length := hinv.2.2.2.1 hne
  have hcl : clampedRoom game = game := clampedRoom_of_lt hlt
  have hcurr : (clampedRoom game).players.get? (clampedRoom game).turn_index
      = some (game.players.get ⟨game.turn_index, hlt⟩) := by
    rw [hcl]
    exact List.get?_eq_get hlt
  rw [moveTurn_some sid r c hcurr, hcl] at hmv
  by_cases hsid : sid = (game.players.get ⟨game.turn_index, hlt⟩).id
  case neg =>
    rw [if_neg hsid] at hmv
    injection hmv with h1 _
    rw [← h1]
    exact dictSet_eq_self_of_get hget
  rw [if_pos hsid] at hmv
  rcases hfd : dictGet game.first_moves_done
      (game.players.get ⟨game.turn_index, hlt⟩).color with _ | fd
  · rw [moveClick_crashed r c hfd] at hmv
    injection hmv with _ h2
    rw [← h2] at hrej
    simp [isRejection] at hrej
  rcases fd with _ | _
  · by_cases hown : (getCell game.grid r c).owner = none
    · rw [moveClick_first_success hinv.1 hin hfd hown] at hmv
      injection hmv with _ h2
      rw [← h2] at hrej
      rw [moveFinish_not_rejection] at hrej
      simp at hrej
    · rw [moveClick_first_reject hfd hown] at hmv
      injection hmv with h1 _
      rw [← h1]
      exact dictSet_eq_self_of_get hget
  · by_cases hown : (getCell game.grid r c).owner
        = some (game.players.get ⟨game.turn_index, hlt⟩).color
    · by_cases hge : 4 ≤ (getCell game.grid r c).dots + 1
      · obtain ⟨gex, _, _, _, hmc⟩ := moveClick_inc_explode hinv.1 hin hfd hown hge
        rw [hmc] at hmv
        injection hmv with _ h2
        rw [← h2] at hrej
        rw [moveFinish_not_rejection] at hrej
        simp at hrej
      · rw [moveClick_inc_small hinv.1 hin hfd hown (by omega)] at hmv
        injection hmv with _ h2
        rw [← h2] at hrej
        rw [moveFinish_not_rejection] at hrej
        simp at hrej
    · rw [moveClick_inc_reject hfd hown] at hmv
      injection hmv with h1 _
      rw [← h1]
      exact dictSet_eq_self_of_get hget

/-- Witness: a move into the not-yet-started room "q" is rejected and the
registry is returned unchanged. -/
theorem C6_rejection_frame_witness :
    (onMove (runEvents qEvents) "q" "s1" 0 0).1 = runEvents qEvents :=
  C6_rejection_frame ⟨qEvents, rfl⟩
    (show onMove (runEvents qEvents) "q" "s1" 0 0
      = ((onMove (runEvents qEvents) "q" "s1" 0 0).1,
         (onMove (runEvents qEvents) "q" "s1" 0 0).2) from rfl)
    (show isRejection (onMove (runEvents qEvents) "q" "s1" 0 0).2 = true by decide)

/-! ## Turn rotation across successful non-terminal moves -/

/-- A sequence of moves against room `rid`, each reported `advanced`
(successful and non-terminal). -/
inductive MoveSeq (rid : String) : Registry → List (String × Int × Int) → Registry → Prop
  | nil (reg : Registry) : MoveSeq rid reg [] reg
  | cons {reg reg' reg'' : Registry} {sid : String} {r c : Int}
      {ms : List (String × Int × Int)} :
      onMove reg rid sid r c = (reg', .advanced) →
      MoveSeq rid reg' ms reg'' →
      MoveSeq rid reg ((sid, r, c) :: ms) reg''

/-- A click reported `advanced` keeps the roster and advances the turn by
one modulo the roster size. -/
theorem moveClick_advanced_shape {game room' : GameRoom} {color : String} {r c : Int}
    (h : moveClick game color r c = (room', .advanced)) :
    room'.players = game.players ∧
    room'.turn_index = (game.turn_index + 1) % game.players.length := by
  have finish : ∀ g₃ : GameRoom, g₃.players = game.players →
      g₃.turn_index = game.turn_index →
      moveFinish g₃ = (room', .advanced) →
      room'.players = game.players ∧
      room'.turn_index = (game.turn_index + 1) % game.players.length := by
    intro g₃ hp ht hmf
    unfold moveFinish at hmf
    split at hmf
    · simp at hmf
    · injection hmf with h1 h2
      rw [← h1]
      exact ⟨hp, by rw [ht, hp]⟩
  unfold moveClick at h
  split at h
  · simp at h
  next g₂ hhc =>
    obtain ⟨hp2, ht2, _, _⟩ := handleClick_fields hhc
    split at h
    · simp at h
    · split at h <;> simp at h
  next g₂ hhc =>
    obtain ⟨hp2, ht2, _, _⟩ := handleClick_fields hhc
    split at h
    · simp at h
    next done hfd =>
      split at h
      · simp only [] at h
        split at h
        · simp at h
        · exact finish g₂ hp2 ht2 h
      next g3 heq =>
        simp only [] at h
        split at h
        · exact finish { g₂ with grid := g3 } hp2 ht2 h
        · exact finish g₂ hp2 ht2 h

/-- One `advanced` move against a room with a coherent turn pointer keeps
the roster and rotates the turn by one. -/
theorem onMove_advanced_step {reg reg' : Registry} {rid sid : String} {r c : Int}
    {room : GameRoom}
    (hget : dictGet reg rid = some room)
    (hlt : room.turn_index < room.players.length)
    (hmv : onMove reg rid sid r c = (reg', .advanced)) :
    ∃ room', dictGet reg' rid = some room' ∧ room'.players = room.players ∧
      room'.turn_index = (room.turn_index + 1) % room.players.length := by
  by_cases hst : room.game_started = false
  · rw [onMove_room sid r c hget, if_pos hst] at hmv
    injection hmv with _ h2
    simp at h2
  have hst' : room.game_started = true := by
    revert hst
    cases room.game_started <;> simp
  by_cases hin : inRange r c
  case neg =>
    rw [onMove_room sid r c hget, if_neg (by simp [hst']), if_pos hin] at hmv
    injection hmv with _ h2
    simp at h2
  rw [onMove_checked sid hget hst' hin] at hmv
  have hcl : clampedRoom room = room := clampedRoom_of_lt hlt
  have hcurr : (clampedRoom room).players.get? (clampedRoom room).turn_index
      = some (room.players.get ⟨room.turn_index, hlt⟩) := by
    rw [hcl]
    exact List.get?_eq_get hlt
  rw [moveTurn_some sid r c hcurr, hcl] at hmv
  by_cases hsid : sid = (room.players.get ⟨room.turn_index, hlt⟩).id
  case neg =>
    rw [if_neg hsid] at hmv
    injection hmv with _ h2
    simp at h2
  rw [if_pos hsid] at hmv
  injection hmv with h1 h2
  have hpair : moveClick room (room.players.get ⟨room.turn_index, hlt⟩).color r c
      = ((moveClick room (room.players.get ⟨room.turn_index, hlt⟩).color r c).1,
         MoveOutcome.advanced) := by
    rw [← h2]
  obtain ⟨hp, ht⟩ := moveClick_advanced_shape hpair
  exact ⟨(moveClick room (room.players.get ⟨room.turn_index, hlt⟩).color r c).1,
    by rw [← h1]; exact dictGet_dictSet_self reg rid _, hp, ht⟩

/-- Rotation across a whole `advanced` sequence: the turn advances by the
number of moves, modulo the fixed roster size. -/
theorem moveSeq_turn {rid : String} : ∀ {ms : List (String × Int × Int)}
    {reg reg' : Registry} {room : GameRoom},
    MoveSeq rid reg ms reg' → dictGet reg rid = some room →
    room.turn_index < room.players.length →
    ∃ room', dictGet reg' rid = some room' ∧ room'.players = room.players ∧
      room'.turn_index = (room.turn_index + ms.length) % room.players.length ∧
      room'.turn_index < room'.players.length := by
  intro ms
  induction ms with
  | nil =>
    intro reg reg' room hseq hget hlt
    cases hseq
    exact ⟨room, hget, rfl, by simp [Nat.mod_eq_of_lt hlt], hlt⟩
  | cons m rest ih =>
    intro reg reg' room hseq hget hlt
    cases hseq with
    | cons hmove htail =>
      obtain ⟨room₁, hget₁, hp₁, ht₁⟩ := onMove_advanced_step hget hlt hmove
      have hpos : 0 < room.players.length := Nat.lt_of_le_of_lt (Nat.zero_le _) hlt
      have hlt₁ : room₁.turn_index < room₁.players.length := by
        rw [ht₁, hp₁]
        exact Nat.mod_lt _ hpos
      obtain ⟨room₂, hget₂, hp₂, ht₂, hlt₂⟩ := ih htail hget₁ hlt₁
      refine ⟨room₂, hget₂, by rw [hp₂, hp₁], ?_, hlt₂⟩
      rw [ht₂, ht₁, hp₁]
      rw [Nat.mod_add_mod]
      have harith : room.turn_index + 1 + rest.length
          = room.turn_index + (rest.length + 1) := by
        omega
      rw [harith]
      rfl

/-- C8: (1) in a room whose turn pointer starts at zero, a sequence of N
moves all reported `advanced` leaves the roster unchanged and the turn
pointer at N mod K, K the roster size; (2) a removal that returns a player
leaves the turn pointer strictly below the roster size whenever the
remaining roster is non-empty. -/
theorem C8_turn_rotation :
    (∀ (rid : String) (reg reg' : Registry) (ms : List (String × Int × Int))
        (room room' : GameRoom),
      MoveSeq rid reg ms reg' →
      dictGet reg rid = some room →
      room.turn_index = 0 → 0 < room.players.length →
      dictGet reg' rid = some room' →
      room'.players = room.players ∧
        room'.turn_index = ms.length % room.players.length) ∧
    (∀ (g g' : GameRoom) (sid : String) (info : String × String),
      removePlayer g sid = (g', some info) → g'.players ≠ [] →
      g'.turn_index < g'.players.length) := by
  constructor
  · intro rid reg reg' ms room room' hseq hget hturn0 hpos hroom'
    obtain ⟨room'', hget'', hp, ht, _⟩ :=
      moveSeq_turn hseq hget (by rw [hturn0]; exact hpos)
    have heqr : room' = room'' := Option.some_inj.mp (hroom'.symm.trans hget'')
    rw [heqr, hp, ht, hturn0]
    exact ⟨rfl, by rw [Nat.zero_add]⟩
  · intro g g' sid info h hne
    unfold removePlayer at h
    split at h
    · injection h with _ h2
      simp at h2
    next players' p heq =>
      injection h with h1 _
      rw [← h1]
      rw [← h1] at hne
      have hne2 : players' ≠ [] := hne
      have hpos : 0 < players'.length := List.length_pos.mpr hne2
      show (if players'.length ≤ g.turn_index then 0 else g.turn_index) < players'.length
      by_cases hle : players'.length ≤ g.turn_index
      · rw [if_pos hle]
        exact hpos
      · rw [if_neg hle]
        omega

/-! ## Capacity is stored unclamped and never rewritten -/

theorem addPlayer_max (g : GameRoom) (sid name : String) :
    (addPlayer g sid name).1.max_players = g.max_players := by
  rcases hfind : g.players.find? (fun q => q.id == sid) with _ | p
  · by_cases hlen : (g.players.length : Int) < g.max_players
    · rcases hcol : colors.get? g.players.length with _ | col
      · rw [addPlayer_crashed_eq name hfind hlen hcol]
      · rw [addPlayer_seated_eq name hfind hlen hcol]
    · rw [addPlayer_full_eq name hfind hlen]
  · rw [addPlayer_rejoined_eq name hfind]

theorem removePlayer_max (g : GameRoom) (sid : String) :
    (removePlayer g sid).1.max_players = g.max_players := by
  unfold removePlayer
  split <;> rfl

theorem clampedRoom_max (game : GameRoom) :
    (clampedRoom game).max_players = game.max_players := by
  unfold clampedRoom
  split <;> rfl

theorem moveClick_max (game : GameRoom) (color : String) (r c : Int) :
    (moveClick game color r c).1.max_players = game.max_players := by
  unfold moveClick
  split
  · rfl
  next g₂ hhc =>
    have hf := (handleClick_fields hhc).2.2.2
    split
    · exact hf
    · exact hf
  next g₂ hhc =>
    have hf := (handleClick_fields hhc).2.2.2
    split
    · exact hf
    · split
      · simp only []
        split
        · exact hf
        · rw [(moveFinish_fields _).2.2.2.2]
          exact hf
      · simp only []
        split
        · rw [(moveFinish_fields _).2.2.2.2]
          exact hf
        · rw [(moveFinish_fields _).2.2.2.2]
          exact hf

theorem moveTurn_max (game : GameRoom) (sid : String) (r c : Int) :
    (moveTurn game sid r c).1.max_players = game.max_players := by
  rw [moveTurn_eq]
  split
  · exact clampedRoom_max game
  · split
    · rw [moveClick_max]
      exact clampedRoom_max game
    · exact clampedRoom_max game

/-- Lookup hits a head whose key matches. -/
theorem dictGet_cons_pos {α : Type} {kv : String × α} {rest : List (String × α)}
    {k : String} (h : (kv.1 == k) = true) :
    dictGet (kv :: rest) k = some kv.2 := by
  simp [dictGet, List.find?_cons, h]

/-- Lookup skips a head whose key differs. -/
theorem dictGet_cons_neg {α : Type} {kv : String × α} {rest : List (String × α)}
    {k : String} (h : (kv.1 == k) = false) :
    dictGet (kv :: rest) k = dictGet rest k := by
  simp [dictGet, List.find?_cons, h]

/-- A successful lookup's key is among the stored keys. -/
theorem mem_keys_of_dictGet {α : Type} {d : List (String × α)} {k : String} {v : α}
    (h : dictGet d k = some v) : k ∈ d.map Prod.fst := by
  unfold dictGet at h
  rcases hf : d.find? (fun kv => kv.1 == k) with _ | kv
  · rw [hf] at h
    simp at h
  · have hmem := List.mem_of_find?_eq_some hf
    have hkey := List.find?_some hf
    have : kv.1 = k := by simpa using hkey
    exact this ▸ List.mem_map.mpr ⟨kv, hmem, rfl⟩

/-- `dictSet` only ever adds the assigned key. -/
theorem mem_keys_dictSet {α : Type} {d : List (String × α)} {k x : String} {v : α}
    (h : x ∈ (dictSet d k v).map Prod.fst) : x = k ∨ x ∈ d.map Prod.fst := by
  induction d with
  | nil =>
    simp [dictSet] at h
    exact Or.inl h
  | cons kv rest ih =>
    unfold dictSet at h
    by_cases hk : (kv.1 == k) = true
    · rw [if_pos hk] at h
      simp only [List.map_cons, List.mem_cons] at h
      rcases h with h | h
      · exact Or.inl h
      · exact Or.inr (List.mem_cons.mpr (Or.inr h))
    · rw [if_neg hk] at h
      simp only [List.map_cons, List.mem_cons] at h
      rcases h with h | h
      · exact Or.inr (List.mem_cons.mpr (Or.inl h))
      · rcases ih h with h' | h'
        · exact Or.inl h'
        · exact Or.inr (List.mem_cons.mpr (Or.inr h'))

/-- Assignment keeps the keys duplicate-free. -/
theorem nodup_keys_dictSet {α : Type} {d : List (String × α)}
    (h : (d.map Prod.fst).Nodup) (k : String) (v : α) :
    ((dictSet d k v).map Prod.fst).Nodup := by
  induction d with
  | nil => simp [dictSet]
  | cons kv rest ih =>
    simp only [List.map_cons, List.nodup_cons] at h
    unfold dictSet
    by_cases hk : (kv.1 == k) = true
    · rw [if_pos hk]
      simp only [List.map_cons, List.nodup_cons]
      have : kv.1 = k := by simpa using hk
      exact ⟨this ▸ h.1, h.2⟩
    · rw [if_neg hk]
      simp only [List.map_cons, List.nodup_cons]
      refine ⟨?_, ih h.2⟩
      intro hmem
      rcases mem_keys_dictSet hmem with h' | h'
      · exact absurd (by simpa using h' : (kv.1 == k) = true) (by simp [hk])
      · exact h.1 h'

/-- The keys surviving a disconnect are a sublist of the old keys. -/
theorem keys_onDisconnect_sublist (reg : Registry) (sid : String) :
    ((onDisconnect reg sid).map Prod.fst).Sublist (reg.map Prod.fst) := by
  induction reg with
  | nil => simp [onDisconnect]
  | cons kv rest ih =>
    unfold onDisconnect at ih ⊢
    rw [List.filterMap_cons]
    rcases hrm : (removePlayer kv.2 sid).2 with _ | y
    · simp only [hrm]
      simp only [List.map_cons]
      exact ih.cons₂ _
    · simp only [hrm]
      by_cases hemp : (removePlayer kv.2 sid).1.players = []
      · rw [if_pos hemp]
        exact ih.cons _
      · rw [if_neg hemp]
        simp only [List.map_cons]
        exact ih.cons₂ _

/-- Duplicate-free room keys, an invariant of the registry. -/
def RegKeysNodup (reg : Registry) : Prop := (reg.map Prod.fst).Nodup

theorem regNodup_stepEvent {reg : Registry} (h : RegKeysNodup reg) (ev : Event) :
    RegKeysNodup (stepEvent reg ev) := by
  cases ev with
  | join rid name pc sid =>
    show RegKeysNodup (onJoin reg rid name pc sid).1
    by_cases h1 : rid = "" ∨ name = ""
    · unfold onJoin
      rw [if_pos h1]
      exact h
    by_cases h2 : 20 < name.length
    · unfold onJoin
      rw [if_neg h1, if_pos h2]
      exact h
    by_cases h3 : 50 < rid.length
    · unfold onJoin
      rw [if_neg h1, if_neg h2, if_pos h3]
      exact h
    rcases hget : dictGet reg rid with _ | game
    · rw [onJoin_fresh pc sid h1 h2 h3 hget, joinAdd_fst]
      exact nodup_keys_dictSet (nodup_keys_dictSet h rid _) rid _
    · rw [onJoin_room pc sid h1 h2 h3 hget]
      by_cases h4 : name ∈ game.players.map (·.name)
      · rw [if_pos h4]
        exact h
      rw [if_neg h4]
      by_cases h5 : game.max_players ≤ (game.players.length : Int)
      · rw [if_pos h5]
        exact h
      rw [if_neg h5, joinAdd_fst]
      exact nodup_keys_dictSet h rid _
  | move rid sid r c =>
    show RegKeysNodup (onMove reg rid sid r c).1
    rcases hget : dictGet reg rid with _ | game
    · rw [onMove_noRoom sid r c hget]
      exact h
    by_cases hst : game.game_started = false
    · rw [onMove_room sid r c hget, if_pos hst]
      exact h
    by_cases hin : inRange r c
    · rw [onMove_room sid r c hget, if_neg hst, if_neg (not_not_intro hin)]
      exact nodup_keys_dictSet h rid _
    · rw [onMove_room sid r c hget, if_neg hst, if_pos hin]
      exact h
  | disconnect sid =>
    exact (keys_onDisconnect_sublist reg sid).nodup h

theorem regNodup_runEvents (evs : List Event) : RegKeysNodup (runEvents evs) := by
  unfold runEvents
  have gen : ∀ (l : List Event) (reg : Registry), RegKeysNodup reg →
      RegKeysNodup (l.foldl stepEvent reg) := by
    intro l
    induction l with
    | nil =>
      intro reg h
      exact h
    | cons e rest ih =>
      intro reg h
      exact ih _ (regNodup_stepEvent h e)
  exact gen evs [] (by simp [RegKeysNodup])

theorem regNodup_of_reachable {reg : Registry} (h : Reachable reg) :
    RegKeysNodup reg := by
  obtain ⟨evs, hevs⟩ := h
  rw [← hevs]
  exact regNodup_runEvents evs

/-- What a disconnect can do to the room a key resolves to: leave it alone
or pass it through `remove_player`. -/
theorem dictGet_onDisconnect {reg : Registry} {sid rid : String} {room' : GameRoom}
    (hnd : RegKeysNodup reg)
    (h : dictGet (onDisconnect reg sid) rid = some room') :
    ∃ room₀, dictGet reg rid = some room₀ ∧
      (room' = room₀ ∨ room' = (removePlayer room₀ sid).1) := by
  induction reg with
  | nil =>
    simp [onDisconnect, dictGet] at h
  | cons kv rest ih =>
    have hnd' : (kv.1 ∉ rest.map Prod.fst) ∧ RegKeysNodup rest := by
      simpa [RegKeysNodup, List.nodup_cons] using hnd
    unfold onDisconnect at h
    rw [List.filterMap_cons] at h
    have hrest : ∀ h₀ : dictGet (onDisconnect rest sid) rid = some room',
        ∃ room₀, dictGet rest rid = some room₀ ∧
          (room' = room₀ ∨ room' = (removePlayer room₀ sid).1) :=
      fun h₀ => ih hnd'.2 h₀
    rcases hrm : (removePlayer kv.2 sid).2 with _ | y
    · simp only [hrm] at h
      by_cases hk : (kv.1 == rid) = true
      · rw [dictGet_cons_pos hk] at h
        exact ⟨kv.2, dictGet_cons_pos hk, Or.inl (Option.some_inj.mp h).symm⟩
      · rw [dictGet_cons_neg (by simpa using hk)] at h
        obtain ⟨room₀, hget, hc⟩ := hrest h
        exact ⟨room₀, by
          rw [dictGet_cons_neg (by simpa using hk)]
          exact hget, hc⟩
    · simp only [hrm] at h
      by_cases hemp : (removePlayer kv.2 sid).1.players = []
      · rw [if_pos hemp] at h
        by_cases hk : (kv.1 == rid) = true
        · exfalso
          have hmem : rid ∈ (onDisconnect rest sid).map Prod.fst :=
            mem_keys_of_dictGet h
          have hsub := (keys_onDisconnect_sublist rest sid).subset hmem
          have : kv.1 = rid := by simpa using hk
          exact hnd'.1 (this ▸ hsub)
        · obtain ⟨room₀, hget, hc⟩ := hrest h
          exact ⟨room₀, by
            rw [dictGet_cons_neg (by simpa using hk)]
            exact hget, hc⟩
      · rw [if_neg hemp] at h
        by_cases hk : (kv.1 == rid) = true
        · rw [dictGet_cons_pos (by simpa using hk)] at h
          exact ⟨kv.2, dictGet_cons_pos hk,
            Or.inr (Option.some_inj.mp h).symm⟩
        · rw [dictGet_cons_neg (by simpa using hk)] at h
          obtain ⟨room₀, hget, hc⟩ := hrest h
          exact ⟨room₀, by
            rw [dictGet_cons_neg (by simpa using hk)]
            exact hget, hc⟩

/-- C9 (amended): a join against an unknown room id stores a fresh room
whose `max_players` is exactly the requested count, with no clamping; and
from then on no event — join, move or disconnect — ever rewrites a stored
room's `max_players`. -/
theorem C9_capacity_behavior :
    (∀ (reg : Registry) (rid name : String) (pc : Int) (sid : String)
        (room : GameRoom),
      dictGet reg rid = none →
      dictGet (onJoin reg rid name pc sid).1 rid = some room →
      room.max_players = pc) ∧
    (∀ (reg : Registry), Reachable reg → ∀ (ev : Event) (rid : String)
        (room room' : GameRoom),
      dictGet reg rid = some room →
      dictGet (stepEvent reg ev) rid = some room' →
      room'.max_players = room.max_players) := by
  constructor
  · intro reg rid name pc sid room hnone hsome
    by_cases h1 : rid = "" ∨ name = ""
    · have hid : (onJoin reg rid name pc sid).1 = reg := by
        unfold onJoin
        rw [if_pos h1]
      rw [hid, hnone] at hsome
      simp at hsome
    by_cases h2 : 20 < name.length
    · have hid : (onJoin reg rid name pc sid).1 = reg := by
        unfold onJoin
        rw [if_neg h1, if_pos h2]
      rw [hid, hnone] at hsome
      simp at hsome
    by_cases h3 : 50 < rid.length
    · have hid : (onJoin reg rid name pc sid).1 = reg := by
        unfold onJoin
        rw [if_neg h1, if_neg h2, if_pos h3]
      rw [hid, hnone] at hsome
      simp at hsome
    rw [onJoin_fresh pc sid h1 h2 h3 hnone, joinAdd_fst,
      dictGet_dictSet_self] at hsome
    injection hsome with h4
    rw [← h4, addPlayer_max]
    rfl
  · intro reg hre ev rid room room' hget hget'
    cases ev with
    | join rid₀ name pc sid =>
      have hstep : stepEvent reg (.join rid₀ name pc sid)
          = (onJoin reg rid₀ name pc sid).1 := rfl
      rw [hstep] at hget'
      by_cases h1 : rid₀ = "" ∨ name = ""
      · have hid : (onJoin reg rid₀ name pc sid).1 = reg := by
          unfold onJoin
          rw [if_pos h1]
        rw [hid, hget] at hget'
        rw [Option.some_inj.mp hget']
      by_cases h2 : 20 < name.length
      · have hid : (onJoin reg rid₀ name pc sid).1 = reg := by
          unfold onJoin
          rw [if_neg h1, if_pos h2]
        rw [hid, hget] at hget'
        rw [Option.some_inj.mp hget']
      by_cases h3 : 50 < rid₀.length
      · have hid : (onJoin reg rid₀ name pc sid).1 = reg := by
          unfold onJoin
          rw [if_neg h1, if_neg h2, if_pos h3]
        rw [hid, hget] at hget'
        rw [Option.some_inj.mp hget']
      rcases hget₀ : dictGet reg rid₀ with _ | game₀
      · rw [onJoin_fresh pc sid h1 h2 h3 hget₀, joinAdd_fst] at hget'
        by_cases hk : rid = rid₀
        · rw [hk, hget₀] at hget
          simp at hget
        · rw [dictGet_dictSet_of_ne _ (fun he => hk he.symm) _,
            dictGet_dictSet_of_ne _ (fun he => hk he.symm) _, hget] at hget'
          rw [Option.some_inj.mp hget']
      · rw [onJoin_room pc sid h1 h2 h3 hget₀] at hget'
        by_cases h4 : name ∈ game₀.players.map (·.name)
        · rw [if_pos h4, hget] at hget'
          rw [Option.some_inj.mp hget']
        rw [if_neg h4] at hget'
        by_cases h5 : game₀.max_players ≤ (game₀.players.length : Int)
        · rw [if_pos h5, hget] at hget'
          rw [Option.some_inj.mp hget']
        rw [if_neg h5, joinAdd_fst] at hget'
        by_cases hk : rid = rid₀
        · subst hk
          rw [dictGet_dictSet_self] at hget'
          rw [← Option.some_inj.mp hget', addPlayer_max]
          rw [hget₀] at hget
          rw [Option.some_inj.mp hget]
        · rw [dictGet_dictSet_of_ne _ (fun he => hk he.symm) _, hget] at hget'
          rw [Option.some_inj.mp hget']
    | move rid₀ sid r c =>
      have hstep : stepEvent reg (.move rid₀ sid r c)
          = (onMove reg rid₀ sid r c).1 := rfl
      rw [hstep] at hget'
      rcases hget₀ : dictGet reg rid₀ with _ | game₀
      · rw [onMove_noRoom sid r c hget₀, hget] at hget'
        rw [Option.some_inj.mp hget']
      by_cases hst : game₀.game_started = false
      · rw [onMove_room sid r c hget₀, if_pos hst, hget] at hget'
        rw [Option.some_inj.mp hget']
      by_cases hin : inRange r c
      case neg =>
        rw [onMove_room sid r c hget₀, if_neg hst, if_pos hin, hget] at hget'
        rw [Option.some_inj.mp hget']
      rw [onMove_room sid r c hget₀, if_neg hst, if_neg (not_not_intro hin)] at hget'
      by_cases hk : rid = rid₀
      · subst hk
        rw [dictGet_dictSet_self] at hget'
        rw [← Option.some_inj.mp hget', moveTurn_max]
        rw [hget₀] at hget
        rw [Option.some_inj.mp hget]
      · rw [dictGet_dictSet_of_ne _ (fun he => hk he.symm) _, hget] at hget'
        rw [Option.some_inj.mp hget']
    | disconnect sid =>
      have hstep : stepEvent reg (.disconnect sid) = onDisconnect reg sid := rfl
      rw [hstep] at hget'
      obtain ⟨room₀, hget₀, hc⟩ :=
        dictGet_onDisconnect (regNodup_of_reachable hre) hget'
      have hrooms : room₀ = room := by
        rw [hget₀] at hget
        exact Option.some_inj.mp hget
      rcases hc with hc | hc
      · rw [hc, hrooms]
      · rw [hc, removePlayer_max, hrooms]

/-- C9 counterexample: a fresh room requested with capacity 7 stores
`max_players = 7`, outside the claimed clamp range 2..4. -/
theorem C9_unclamped_counterexample :
    (dictGet (onJoin [] "room1" "alice" 7 "s1").1 "room1").map (·.max_players)
      = some 7 ∧ ¬ ((7 : Int) ≤ 4) := by
  refine ⟨by decide, by decide⟩

/-! ## The detector on a board whose single owner is unheld -/

/-- C10 (amended): whenever the single scanned owner color of a started
board is held by no seated player, `check_winner` returns `none` — the
player scan falls through — and the move path then finishes with a normal
turn advance; the claim's post-success scenario itself is unsatisfiable
(see the paired counterexample), since a successful move always leaves the
mover owning a dotted cell. -/
theorem C10_unheld_owner_no_winner {room : GameRoom} {X : String}
    (hones : (scanBoard room.grid).1 = [X])
    (hnone : ∀ p ∈ room.players, p.color ≠ X) :
    checkWinner room = none ∧
    moveFinish room
      = ({ room with turn_index := (room.turn_index + 1) % room.players.length },
         .advanced) := by
  have hcw : checkWinner room = none := by
    rw [checkWinner_eq]
    by_cases hst : room.game_started = false
    · rw [if_pos hst]
    rw [if_neg hst]
    by_cases hcond : room.first_moves_done.all (fun kv => kv.2) ∧
        0 < (scanBoard room.grid).2 ∧ (scanBoard room.grid).1.length = 1
    · rw [if_pos hcond, hones]
      show (room.players.find? (fun p => p.color == X)).map (·.name) = none
      rw [List.find?_eq_none.mpr]
      · rfl
      · intro p hp
        simp [hnone p hp]
    · rw [if_neg hcond]
  exact ⟨hcw, moveFinish_advanced hcw⟩

/-- A started room whose only board color belongs to a departed player. -/
def c10Room : GameRoom :=
  { room_id := "w"
    max_players := 2
    grid := setCellN initGrid 2 2 { dots := 2, owner := some "ghost" }
    players := [{ id := "s1", name := "P1", color := "red" }]
    turn_index := 0
    game_started := true
    first_moves_done := [("red", true)] }

/-- Witness: the detector is silent on the ghost-owned board and the move
tail advances the turn. -/
theorem C10_unheld_owner_no_winner_witness :
    checkWinner c10Room = none ∧
    moveFinish c10Room
      = ({ c10Room with
            turn_index := (c10Room.turn_index + 1) % c10Room.players.length },
         .advanced) :=
  C10_unheld_owner_no_winner
    (show (scanBoard c10Room.grid).1 = ["ghost"] by decide)
    (show ∀ p ∈ c10Room.players, p.color ≠ "ghost" by decide)

/-- C10 counterexample: the claim's scenario — a successful move after which
exactly one owner color remains, with positive scanned dots, all recorded
first moves done, and no seated holder — can never occur: a successful move
leaves the mover, who is seated, owning a dotted cell, so the single
remaining color is the mover's own.  The claim's parenthetical possibility
assertion is false and the conditional holds only vacuously. -/
theorem C10_scenario_unsatisfiable :
    (∃ (reg reg' : Registry) (rid sid : String) (r c : Int)
        (game room' : GameRoom) (out : MoveOutcome) (X : String),
      dictGet reg rid = some game ∧ gridWF game.grid ∧
      onMove reg rid sid r c = (reg', out) ∧ isSuccessOutcome out = true ∧
      dictGet reg' rid = some room' ∧
      (scanBoard room'.grid).1 = [X] ∧ 0 < (scanBoard room'.grid).2 ∧
      room'.first_moves_done.all (fun kv => kv.2) = true ∧
      ∀ p ∈ room'.players, p.color ≠ X) ↔ False := by
  constructor
  · rintro ⟨reg, reg', rid, sid, r, c, game, room', out, X, hget, hwf, hmv,
      hsucc, hroom', hones, htot, hall, hnone⟩
    obtain ⟨curr, room₃, hmem, hw3, hgood, hreg', hout⟩ :=
      onMove_success_shape hget hwf hmv hsucc
    have hroomeq : room' = (moveFinish room₃).1 := by
      rw [hreg', dictGet_dictSet_self] at hroom'
      exact (Option.some_inj.mp hroom').symm
    obtain ⟨hg3, hp3, _, _, _⟩ := moveFinish_fields room₃
    obtain ⟨i, j, hi, hj, hoc, hdc⟩ := hgood
    obtain ⟨row, hrow, hcm⟩ := getCellN_mem hw3 hi hj
    have hmemo : curr.color ∈ (scanBoard room₃.grid).1 :=
      scanBoard_owner_of_mem hrow hcm hoc
    rw [hroomeq, hg3] at hones
    rw [hones] at hmemo
    have hcx : curr.color = X := by simpa using hmemo
    have hcurrmem : curr ∈ room'.players := by
      rw [hroomeq, hp3]
      exact hmem
    exact hnone curr hcurrmem hcx
  · exact False.elim
